import Mathlib

/-!
Verification development for the variant_voice tumor-board assessment core.

The Python sources are shallowly embedded: Python `str` values become
`List Char` (named `Str` below), optional strings become `Str` with `[]`
standing for both `None` and `""` (the embedded functions only ever test
truthiness or search these fields, and Python treats `None` and `""`
identically under those operations), Python dicts with fixed keys become
structures, and every method that the verified claims touch is translated
line by line from `src/tumorboard`.  Case mapping is modelled on ASCII
(the code only ever feeds ASCII gene symbols, variant notations and
indication text through `.lower()`/`.upper()`).
-/

namespace VariantVoice

/-- Python `str`, modelled as its list of characters. -/
abbrev Str := List Char

/-- Convenience injection of a Lean string literal into the model. -/
def lit (s : String) : Str := s.toList

/-- ASCII model of Python `str.lower` on one character. -/
def loChar (c : Char) : Char :=
  if 65 ≤ c.toNat ∧ c.toNat ≤ 90 then Char.ofNat (c.toNat + 32) else c

/-- ASCII model of Python `str.upper` on one character. -/
def upChar (c : Char) : Char :=
  if 97 ≤ c.toNat ∧ c.toNat ≤ 122 then Char.ofNat (c.toNat - 32) else c

/-- Python `s.lower()`. -/
def lo (s : Str) : Str := s.map loChar

/-- Python `s.upper()`. -/
def up (s : Str) : Str := s.map upChar

/-- Python whitespace recognised by `str.strip` (ASCII part). -/
def isWsChar (c : Char) : Bool :=
  c.toNat = 32 ∨ c.toNat = 9 ∨ c.toNat = 10 ∨ c.toNat = 13 ∨ c.toNat = 11 ∨ c.toNat = 12

/-- Drop leading whitespace. -/
def dropStartWs (s : Str) : Str := s.dropWhile isWsChar

/-- Drop trailing whitespace. -/
def dropEndWs (s : Str) : Str := (s.reverse.dropWhile isWsChar).reverse

/-- Python `s.strip()`. -/
def pyStrip (s : Str) : Str := dropEndWs (dropStartWs s)

/-- `isPre a b` holds when `a` is an initial segment of `b`
(Python `b.startswith(a)`). -/
def isPre : Str → Str → Bool
  | [], _ => true
  | _ :: _, [] => false
  | a :: as, b :: bs => a = b && isPre as bs

/-- Python substring test `sub in s`. -/
def pyIn (sub : Str) : Str → Bool
  | [] => decide (sub = [])
  | c :: t => isPre sub (c :: t) || pyIn sub t

/-! ## Validation bookkeeping
(`src/tumorboard/models/validation.py`, `src/tumorboard/validation/validator.py`) -/

/-- `ActionabilityTier` from `models/assessment.py` (string enum
`Tier I / Tier II / Tier III / Tier IV / Unknown`). -/
inductive ActionabilityTier where
  | tierI
  | tierII
  | tierIII
  | tierIV
  | unknown
deriving DecidableEq, Repr

/-- The `tier_order` dict inside `ValidationResult.tier_distance`
(`models/validation.py` lines 87-93); `.get(..., -1)` defaults are the
`-1` on `unknown`, and no other key is possible. -/
def tierOrderIdx : ActionabilityTier → Int
  | .tierI => 0
  | .tierII => 1
  | .tierIII => 2
  | .tierIV => 3
  | .unknown => -1

/-- `ValidationResult.tier_distance` (`models/validation.py` lines 73-99). -/
def tierDistance (expected predicted : ActionabilityTier) : Int :=
  if tierOrderIdx expected = -1 ∨ tierOrderIdx predicted = -1 then 999
  else (tierOrderIdx expected - tierOrderIdx predicted).natAbs

/-- `is_correct` as computed by `Validator.validate_single`
(`validation/validator.py` line 109): `assessment.tier == entry.expected_tier`. -/
def validatorIsCorrect (expected predicted : ActionabilityTier) : Bool :=
  predicted = expected

/-- The TP/FP/FN counters of `TierMetrics` (`models/validation.py`). -/
structure TierCounters where
  true_positives : Nat := 0
  false_positives : Nat := 0
  false_negatives : Nat := 0
deriving Repr, DecidableEq

/-- `ValidationMetrics`' counting state.  The Python `tier_metrics` dict is
keyed by `tier.value` and lazily initialised to zero counters; a total
function defaulting to zero counters is observationally the same state. -/
structure MetricsState where
  total_cases : Nat
  correct_predictions : Nat
  tier_metrics : ActionabilityTier → TierCounters

/-- A fresh `ValidationMetrics()` (all counters zero). -/
def initialMetrics : MetricsState :=
  { total_cases := 0, correct_predictions := 0, tier_metrics := fun _ => {} }

/-- The parts of a `ValidationResult` that `add_result` reads. -/
structure ValidationResultRecord where
  expected_tier : ActionabilityTier
  predicted_tier : ActionabilityTier
  is_correct : Bool

/-- `ValidationMetrics.add_result` (`models/validation.py` lines 177-223):
`total_cases += 1`; on `is_correct`, `TP[expected] += 1`; otherwise
`FN[expected] += 1` and `FP[predicted] += 1` (failure-analysis text
prose is not part of the counting state). -/
def addResult (m : MetricsState) (r : ValidationResultRecord) : MetricsState :=
  let m1 : MetricsState :=
    { m with
      total_cases := m.total_cases + 1
      correct_predictions :=
        if r.is_correct then m.correct_predictions + 1 else m.correct_predictions }
  if r.is_correct then
    { m1 with
      tier_metrics := fun t =>
        if t = r.expected_tier then
          { m1.tier_metrics t with
            true_positives := (m1.tier_metrics t).true_positives + 1 }
        else m1.tier_metrics t }
  else
    { m1 with
      tier_metrics := fun t =>
        let base := m1.tier_metrics t
        let afterFN :=
          if t = r.expected_tier then
            { base with false_negatives := base.false_negatives + 1 }
          else base
        if t = r.predicted_tier then
          { afterFN with false_positives := afterFN.false_positives + 1 }
        else afterFN }

/-- `Σ TP` over every tier of the confusion matrix. -/
def sumTP (m : MetricsState) : Nat :=
  (m.tier_metrics .tierI).true_positives + (m.tier_metrics .tierII).true_positives +
    (m.tier_metrics .tierIII).true_positives + (m.tier_metrics .tierIV).true_positives +
    (m.tier_metrics .unknown).true_positives

/-- `Σ FP` over every tier of the confusion matrix. -/
def sumFP (m : MetricsState) : Nat :=
  (m.tier_metrics .tierI).false_positives + (m.tier_metrics .tierII).false_positives +
    (m.tier_metrics .tierIII).false_positives + (m.tier_metrics .tierIV).false_positives +
    (m.tier_metrics .unknown).false_positives

/-- `Σ FN` over every tier of the confusion matrix. -/
def sumFN (m : MetricsState) : Nat :=
  (m.tier_metrics .tierI).false_negatives + (m.tier_metrics .tierII).false_negatives +
    (m.tier_metrics .tierIII).false_negatives + (m.tier_metrics .tierIV).false_negatives +
    (m.tier_metrics .unknown).false_negatives

/-- `TierMetrics.calculate`'s three derived scores
(`models/validation.py` lines 123-151).  Python floats are modelled as
exact rationals: the verified property only concerns the zero guards,
where float and rational division of non-negative integers agree. -/
structure TierScores where
  precision : ℚ
  recall_score : ℚ
  f1_score : ℚ

/-- The guarded precision assignment of `TierMetrics.calculate`. -/
def tierPrecision (tp fp : Nat) : ℚ :=
  if tp + fp > 0 then (tp : ℚ) / ((tp : ℚ) + (fp : ℚ)) else 0

/-- The guarded recall assignment of `TierMetrics.calculate`. -/
def tierRecall (tp fn : Nat) : ℚ :=
  if tp + fn > 0 then (tp : ℚ) / ((tp : ℚ) + (fn : ℚ)) else 0

/-- `TierMetrics.calculate` (`models/validation.py` lines 123-151). -/
def tierMetricsCalculate (tp fp fn : Nat) : TierScores :=
  { precision := tierPrecision tp fp
    recall_score := tierRecall tp fn
    f1_score :=
      if tierPrecision tp fp + tierRecall tp fn > 0 then
        2 * (tierPrecision tp fp * tierRecall tp fn) /
          (tierPrecision tp fp + tierRecall tp fn)
      else 0 }

/-! ## Variant normalization
(`src/tumorboard/utils/variant_normalization.py`, `src/tumorboard/constants.py`,
`src/tumorboard/engine.py` input validation) -/

/-- ASCII upper-case letter. -/
def isUpperAlpha (c : Char) : Bool := 65 ≤ c.toNat ∧ c.toNat ≤ 90

/-- ASCII lower-case letter. -/
def isLowerAlpha (c : Char) : Bool := 97 ≤ c.toNat ∧ c.toNat ≤ 122

/-- ASCII letter (regex `[A-Z]` under `re.IGNORECASE`). -/
def isAsciiAlpha (c : Char) : Bool := isUpperAlpha c || isLowerAlpha c

/-- ASCII digit (regex `\d`). -/
def isDigitChar (c : Char) : Bool := 48 ≤ c.toNat ∧ c.toNat ≤ 57

/-- Regex class `[A-Z*]` under `re.IGNORECASE`. -/
def isLetterStar (c : Char) : Bool := isAsciiAlpha c || c = '*'

/-- `AMINO_ACID_3TO1` from `constants.py` (in source order; one-letter
codes are single characters, the stop codon is `*`). -/
def aminoAcid3to1 : List (Str × Char) :=
  [(lit "ALA", 'A'), (lit "CYS", 'C'), (lit "ASP", 'D'), (lit "GLU", 'E'),
   (lit "PHE", 'F'), (lit "GLY", 'G'), (lit "HIS", 'H'), (lit "ILE", 'I'),
   (lit "LYS", 'K'), (lit "LEU", 'L'), (lit "MET", 'M'), (lit "ASN", 'N'),
   (lit "PRO", 'P'), (lit "GLN", 'Q'), (lit "ARG", 'R'), (lit "SER", 'S'),
   (lit "THR", 'T'), (lit "VAL", 'V'), (lit "TRP", 'W'), (lit "TYR", 'Y'),
   (lit "TER", '*'), (lit "STP", '*'), (lit "STOP", '*'),
   (lit "SEC", 'U'), (lit "PYL", 'O')]

/-- `AMINO_ACID_1TO3` from `constants.py`: the inversion of the 3→1 map
with the stop aliases dropped and `* → TER` added (each remaining
one-letter code occurs exactly once, so the dict comprehension yields
exactly these pairs). -/
def aminoAcid1to3 : List (Char × Str) :=
  [('A', lit "ALA"), ('C', lit "CYS"), ('D', lit "ASP"), ('E', lit "GLU"),
   ('F', lit "PHE"), ('G', lit "GLY"), ('H', lit "HIS"), ('I', lit "ILE"),
   ('K', lit "LYS"), ('L', lit "LEU"), ('M', lit "MET"), ('N', lit "ASN"),
   ('P', lit "PRO"), ('Q', lit "GLN"), ('R', lit "ARG"), ('S', lit "SER"),
   ('T', lit "THR"), ('V', lit "VAL"), ('W', lit "TRP"), ('Y', lit "TYR"),
   ('U', lit "SEC"), ('O', lit "PYL"), ('*', lit "TER")]

/-- Anchored match of `MISSENSE_PATTERN` `^([A-Z*])(\d+)([A-Z*])$` with
`re.IGNORECASE`: a letter-or-star, a maximal non-empty digit run, and a
final letter-or-star (the character classes are disjoint from digits, so
the greedy `\d+` admits no other decomposition). -/
def parseMissense1 (v : Str) : Option (Char × Str × Char) :=
  match v with
  | [] => none
  | c :: rest =>
    if isLetterStar c then
      match rest.takeWhile isDigitChar, rest.dropWhile isDigitChar with
      | [], _ => none
      | ds, [a] => if isLetterStar a then some (c, ds, a) else none
      | _, _ => none
    else none

/-- Anchored match of `MISSENSE_3LETTER_PATTERN`
`^([A-Z]{3})(\d+)([A-Z]{3})$` with `re.IGNORECASE`. -/
def parseMissense3 (v : Str) : Option (Str × Str × Str) :=
  match v with
  | c1 :: c2 :: c3 :: rest =>
    if isAsciiAlpha c1 && isAsciiAlpha c2 && isAsciiAlpha c3 then
      match rest.takeWhile isDigitChar, rest.dropWhile isDigitChar with
      | [], _ => none
      | ds, [d1, d2, d3] =>
        if isAsciiAlpha d1 && isAsciiAlpha d2 && isAsciiAlpha d3 then
          some ([c1, c2, c3], ds, [d1, d2, d3])
        else none
      | _, _ => none
    else none
  | _ => none

/-- The dictionary produced by `VariantNormalizer.normalize_protein_change`. -/
structure ProteinChange where
  short_form : Option Str
  hgvs_protein : Option Str
  long_form : Option Str
  position : Option Nat
  ref_aa : Option Str
  alt_aa : Option Str
  is_missense : Bool
deriving Repr, DecidableEq

/-- The all-`None` result dictionary. -/
def emptyProteinChange : ProteinChange :=
  { short_form := none, hgvs_protein := none, long_form := none,
    position := none, ref_aa := none, alt_aa := none, is_missense := false }

/-- Python `int(...)` on the digit run captured by the regex. -/
def digitsToNat (ds : Str) : Nat := ds.foldl (fun n c => 10 * n + (c.toNat - 48)) 0

/-- `VariantNormalizer.normalize_protein_change`
(`utils/variant_normalization.py` lines 40-112). -/
def normalizeProteinChange (variant0 : Str) : ProteinChange :=
  let variant1 := pyStrip variant0
  let variant := if isPre (lit "p.") (lo variant1) then variant1.drop 2 else variant1
  match parseMissense1 variant with
  | some (r, ds, a) =>
    let refc := upChar r
    let altc := upChar a
    let sf := refc :: (ds ++ [altc])
    { short_form := some sf
      hgvs_protein := some (lit "p." ++ sf)
      long_form :=
        match aminoAcid1to3.lookup refc, aminoAcid1to3.lookup altc with
        | some r3, some a3 => some (r3 ++ ds ++ a3)
        | _, _ => none
      position := some (digitsToNat ds)
      ref_aa := some [refc]
      alt_aa := some [altc]
      is_missense := altc != '*' }
  | none =>
    match parseMissense3 variant with
    | some (r3raw, ds, a3raw) =>
      let ref3 := up r3raw
      let alt3 := up a3raw
      match aminoAcid3to1.lookup ref3, aminoAcid3to1.lookup alt3 with
      | some refc, some altc =>
        { short_form := some (refc :: (ds ++ [altc]))
          hgvs_protein := some (lit "p." ++ (refc :: (ds ++ [altc])))
          long_form := some (ref3 ++ ds ++ alt3)
          position := some (digitsToNat ds)
          ref_aa := some [refc]
          alt_aa := some [altc]
          is_missense := altc != '*' }
      | _, _ => emptyProteinChange
    | none => emptyProteinChange

/-- The variant types `classify_variant_type` can return, as an enum in
place of the Python strings (see `variantTypeName` for the spelling). -/
inductive VariantType where
  | missense
  | nonsense
  | frameshift
  | deletion
  | insertion
  | duplication
  | fusion
  | amplification
  | splice
  | truncating
  | unknown
deriving DecidableEq, Repr

/-- The Python string each `VariantType` constructor stands for. -/
def variantTypeName : VariantType → Str
  | .missense => lit "missense"
  | .nonsense => lit "nonsense"
  | .frameshift => lit "frameshift"
  | .deletion => lit "deletion"
  | .insertion => lit "insertion"
  | .duplication => lit "duplication"
  | .fusion => lit "fusion"
  | .amplification => lit "amplification"
  | .splice => lit "splice"
  | .truncating => lit "truncating"
  | .unknown => lit "unknown"

/-- The fusion keyword test of `classify_variant_type`
(`any(kw in variant_lower for kw in ['fusion', 'fus', 'rearrangement'])`). -/
def fusionCheck (vl : Str) : Bool :=
  pyIn (lit "fusion") vl || pyIn (lit "fus") vl || pyIn (lit "rearrangement") vl

/-- The amplification keyword test of `classify_variant_type`. -/
def ampCheck (vl : Str) : Bool :=
  pyIn (lit "amp") vl || pyIn (lit "amplification") vl || pyIn (lit "overexpression") vl

/-- The truncation keyword test of `classify_variant_type`. -/
def truncatCheck (vl : Str) : Bool := pyIn (lit "truncat") vl

/-- The splice keyword test of `classify_variant_type`
(`any(kw in variant_lower for kw in ['splice', 'exon', 'skip'])`). -/
def spliceCheck (vl : Str) : Bool :=
  pyIn (lit "splice") vl || pyIn (lit "exon") vl || pyIn (lit "skip") vl

/-- `\d*\*` continuation after at least one digit was consumed: more
digits, then a literal star. -/
def starTail : Str → Bool
  | [] => false
  | c :: rest => if c = '*' then true else if isDigitChar c then starTail rest else false

/-- `(\d+)\*` anchored at the head of the list. -/
def digitsThenStar : Str → Bool
  | [] => false
  | c :: rest => isDigitChar c && starTail rest

/-- `NONSENSE_PATTERN.search`: `([A-Z*])(\d+)\*` (IGNORECASE) anywhere
in the string. -/
def nonsenseSearch : Str → Bool
  | [] => false
  | c :: rest => (isLetterStar c && digitsThenStar rest) || nonsenseSearch rest

/-- `VariantNormalizer.classify_variant_type`
(`utils/variant_normalization.py` lines 114-157).  The regex searches
with `re.IGNORECASE` for the fixed words `fs`/`del`/`ins`/`dup` are
substring tests on the lowered string. -/
def classifyVariantType (v : Str) : VariantType :=
  let vl := lo v
  if fusionCheck vl then .fusion
  else if ampCheck vl then .amplification
  else if truncatCheck vl then .truncating
  else if spliceCheck vl then .splice
  else if pyIn (lit "fs") vl then .frameshift
  else if pyIn (lit "del") vl then .deletion
  else if pyIn (lit "ins") vl then .insertion
  else if pyIn (lit "dup") vl then .duplication
  else if nonsenseSearch v then .nonsense
  else if (normalizeProteinChange v).is_missense then .missense
  else .unknown

/-- `ALLOWED_VARIANT_TYPES` from `constants.py`. -/
def allowedVariantTypes : List VariantType :=
  [.missense, .nonsense, .insertion, .deletion, .frameshift]

/-- The result dictionary of `VariantNormalizer.normalize_variant`. -/
structure NormalizedVariant where
  gene : Str
  variant_original : Str
  variant_normalized : Str
  variant_type : VariantType
  protein_change : Option ProteinChange
deriving Repr, DecidableEq

/-- `VariantNormalizer.normalize_variant`
(`utils/variant_normalization.py` lines 159-189). -/
def normalizeVariant (gene v : Str) : NormalizedVariant :=
  let pc := normalizeProteinChange v
  { gene := pyStrip (up gene)
    variant_original := v
    variant_normalized :=
      match pc.short_form with
      | some sf => sf
      | none => pyStrip v
    variant_type := classifyVariantType v
    protein_change :=
      match pc.short_form with
      | some _ => some pc
      | none => none }

/-- Steps 1-2 of `AssessmentEngine.assess_variant` (`engine.py` lines
91-104): normalize, then raise `ValueError` when the classified type is
not allowed.  All evidence fetching and the LLM call come strictly after
this check, so an error here happens before either.  (The quotes of the
f-string message are elided.) -/
def assessVariantInputCheck (gene v : Str) : Except Str NormalizedVariant :=
  let n := normalizeVariant gene v
  if n.variant_type ∈ allowedVariantTypes then Except.ok n
  else
    Except.error
      (lit "Variant type " ++ variantTypeName n.variant_type ++
        lit " is not supported. Only SNPs and small indels are allowed (missense, nonsense, insertion, deletion, frameshift). Got variant: " ++ v)

/-- `True` on the `raise` branch. -/
def exceptIsError : Except Str NormalizedVariant → Bool
  | .error _ => true
  | .ok _ => false

/-! ## Evidence bundle and deterministic preprocessor
(`src/tumorboard/models/evidence/*.py`, `src/tumorboard/constants.py`).
Optional string fields are `Str` with `[]` for `None`/`""`; every embedded
consumer only tests truthiness of or searches inside these fields, where
Python `None` and `""` behave identically. -/

/-- `TUMOR_TYPE_MAPPINGS` from `constants.py`, in source order. -/
def tumorTypeMappings : List (Str × List Str) :=
  [(lit "nsclc", [lit "non-small cell lung", lit "nsclc", lit "lung non-small cell",
      lit "lung adenocarcinoma", lit "lung squamous", lit "lung non-small cell carcinoma"]),
   (lit "l", [lit "lung", lit "non-small cell lung", lit "nsclc", lit "small cell lung",
      lit "lung carcinoma"]),
   (lit "sclc", [lit "small cell lung", lit "sclc"]),
   (lit "luad", [lit "lung adenocarcinoma", lit "luad"]),
   (lit "lusc", [lit "lung squamous", lit "lusc", lit "squamous cell lung"]),
   (lit "crc", [lit "colorectal", lit "colon", lit "crc", lit "rectal", lit "rectum"]),
   (lit "coad", [lit "colon adenocarcinoma", lit "coad"]),
   (lit "read", [lit "rectal adenocarcinoma", lit "read", lit "rectum"]),
   (lit "coread", [lit "colorectal", lit "colon", lit "rectal",
      lit "colorectal adenocarcinoma", lit "crc"]),
   (lit "mel", [lit "melanoma", lit "mel", lit "cutaneous melanoma", lit "skin melanoma"]),
   (lit "skcm", [lit "skin cutaneous melanoma", lit "skcm", lit "melanoma"]),
   (lit "bc", [lit "breast", lit "bc", lit "breast cancer", lit "breast carcinoma"]),
   (lit "brca", [lit "breast carcinoma", lit "brca", lit "breast cancer"]),
   (lit "idc", [lit "invasive ductal carcinoma", lit "idc", lit "breast ductal"]),
   (lit "ilc", [lit "invasive lobular carcinoma", lit "ilc", lit "breast lobular"]),
   (lit "atc", [lit "anaplastic thyroid", lit "atc", lit "thyroid anaplastic"]),
   (lit "thca", [lit "thyroid carcinoma", lit "thca", lit "thyroid cancer"]),
   (lit "ptc", [lit "papillary thyroid", lit "ptc"]),
   (lit "gist", [lit "gastrointestinal stromal", lit "gist"]),
   (lit "stad", [lit "stomach adenocarcinoma", lit "stad", lit "gastric"]),
   (lit "esca", [lit "esophageal carcinoma", lit "esca", lit "esophageal"]),
   (lit "paad", [lit "pancreatic adenocarcinoma", lit "paad", lit "pancreatic", lit "pancreas"]),
   (lit "lihc", [lit "liver hepatocellular", lit "lihc", lit "hepatocellular", lit "hcc"]),
   (lit "chol", [lit "cholangiocarcinoma", lit "chol", lit "bile duct"]),
   (lit "prad", [lit "prostate adenocarcinoma", lit "prad", lit "prostate"]),
   (lit "blca", [lit "bladder carcinoma", lit "blca", lit "bladder", lit "urothelial"]),
   (lit "rcc", [lit "renal cell carcinoma", lit "rcc", lit "kidney"]),
   (lit "ccrcc", [lit "clear cell renal", lit "ccrcc", lit "kidney clear cell"]),
   (lit "ov", [lit "ovarian", lit "ov", lit "ovary"]),
   (lit "ucec", [lit "uterine corpus endometrial", lit "ucec", lit "endometrial", lit "uterine"]),
   (lit "cesc", [lit "cervical squamous", lit "cesc", lit "cervical"]),
   (lit "hnsc", [lit "head and neck squamous", lit "hnsc", lit "head neck"]),
   (lit "gbm", [lit "glioblastoma", lit "gbm", lit "glioblastoma multiforme"]),
   (lit "lgg", [lit "low grade glioma", lit "lgg", lit "glioma"]),
   (lit "aml", [lit "acute myeloid leukemia", lit "aml"]),
   (lit "cml", [lit "chronic myeloid leukemia", lit "cml"]),
   (lit "all", [lit "acute lymphoblastic leukemia", lit "all"]),
   (lit "cll", [lit "chronic lymphocytic leukemia", lit "cll"]),
   (lit "dlbcl", [lit "diffuse large b-cell lymphoma", lit "dlbcl"]),
   (lit "mm", [lit "multiple myeloma", lit "mm", lit "myeloma"])]

/-- `FDAApproval` (`models/evidence/fda.py`); only the fields the verified
methods read. -/
structure FDAApproval where
  drug_name : Str := []
  brand_name : Str := []
  generic_name : Str := []
  indication : Str := []
deriving Repr, DecidableEq

/-- `CIViCEvidence` (`models/evidence/civic.py`); only the fields the
verified methods read. -/
structure CIViCEvidence where
  evidence_type : Str := []
  evidence_level : Str := []
  clinical_significance : Str := []
  disease : Str := []
  drugs : List Str := []
  description : Str := []
deriving Repr, DecidableEq

/-- `CIViCAssertionEvidence` (`models/evidence/civic.py`); only the fields
the verified methods read. -/
structure CIViCAssertionEvidence where
  amp_tier : Str := []
  assertion_type : Str := []
  significance : Str := []
  disease : Str := []
  therapies : List Str := []
deriving Repr, DecidableEq

/-- `CGIBiomarkerEvidence` (`models/evidence/cgi.py`); only the fields the
verified methods read. -/
structure CGIBiomarkerEvidence where
  alteration : Str := []
  drug : Str := []
  association : Str := []
  tumor_type : Str := []
  fda_approved : Bool := false
deriving Repr, DecidableEq

/-- `VICCEvidence` (`models/evidence/vicc.py`); only the fields the
verified methods read. -/
structure VICCEvidence where
  disease : Str := []
  drugs : List Str := []
  evidence_level : Str := []
  is_sensitivity : Bool := false
  is_resistance : Bool := false
deriving Repr, DecidableEq

/-- The `Evidence` bundle (`models/evidence/evidence.py`), restricted to
the source lists and identity fields the verified methods read (clinvar
and cosmic records are never consulted by them). -/
structure Evidence where
  gene : Str
  variant : Str
  civic : List CIViCEvidence := []
  fda_approvals : List FDAApproval := []
  cgi_biomarkers : List CGIBiomarkerEvidence := []
  vicc : List VICCEvidence := []
  civic_assertions : List CIViCAssertionEvidence := []
deriving Repr, DecidableEq

/-- `Evidence._tumor_matches` (`evidence.py` lines 44-61).  The dict
iteration only ever returns `True`, so order is irrelevant and `any`
is faithful. -/
def tumorMatches (tumorType disease : Str) : Bool :=
  if tumorType.isEmpty || disease.isEmpty then false
  else
    let tl := pyStrip (lo tumorType)
    let dl := pyStrip (lo disease)
    if pyIn tl dl || pyIn dl tl then true
    else
      tumorTypeMappings.any fun m =>
        ((m.1 == tl) || m.2.any fun nm => pyIn tl nm) && m.2.any fun nm => pyIn nm dl

/-- The `tumor_keywords` table of `FDAApproval.parse_indication_for_tumor`
(`models/evidence/fda.py` lines 30-36), in source order. -/
def fdaTumorKeywords : List (Str × List Str) :=
  [(lit "colorectal", [lit "colorectal", lit "colon", lit "rectal", lit "crc", lit "mcrc"]),
   (lit "melanoma", [lit "melanoma"]),
   (lit "lung", [lit "lung", lit "nsclc", lit "non-small cell"]),
   (lit "breast", [lit "breast"]),
   (lit "thyroid", [lit "thyroid", lit "atc", lit "anaplastic thyroid"])]

/-- The `tumor_match` field of `FDAApproval.parse_indication_for_tumor`
(`models/evidence/fda.py` lines 16-80): the first keyword family whose
members hit the tumor string is scanned against the indication; with no
family, the raw lowered tumor string is the only keyword.  The verified
callers (`_check_fda_requires_wildtype`, `has_fda_for_variant_in_tumor`)
read only this field, so the excerpt/line-of-therapy derivation is not
embedded. -/
def parseIndicationTumorMatch (indication tumorType : Str) : Bool :=
  if indication.isEmpty || tumorType.isEmpty then false
  else
    let il := lo indication
    let tl := lo tumorType
    let keys :=
      match fdaTumorKeywords.find? (fun kv => kv.2.any fun kw => pyIn kw tl) with
      | some kv => kv.2
      | none => [tl]
    keys.any fun kw => pyIn kw il

/-- The global `exclusion_patterns` of `_variant_matches_approval_class`
(`evidence.py` lines 76-80). -/
def exclusionPatterns (geneLower : Str) : List Str :=
  [lit "wild-type", lit "wild type", lit "wildtype",
   geneLower ++ lit "-negative", lit "without mutations"]

/-- `True` when some exclusion pattern occurs in the indication text. -/
def hasExclusionPattern (geneLower ind : Str) : Bool :=
  (exclusionPatterns geneLower).any fun p => pyIn p ind

/-- The V600 class of `_variant_matches_approval_class`. -/
def brafV600Class : List Str := [lit "V600E", lit "V600K", lit "V600D", lit "V600R"]

/-- The `exon_map` of the KIT branch, with the exon number as the string
interpolated into `f'exon {variant_exon}'`. -/
def kitExonMap : List (Str × Str) :=
  [(lit "V560D", lit "9"), (lit "V559D", lit "9"),
   (lit "D816V", lit "17"), (lit "D816H", lit "17"), (lit "D816Y", lit "17")]

/-- `Evidence._variant_matches_approval_class`
(`evidence.py` lines 63-161); pure in `(gene, variant, indication_text)`
(the `approval` argument is never read). -/
def variantMatchesApprovalClass (gene variant ind : Str) : Bool :=
  let geneLower := lo gene
  let variantUpper := up variant
  if hasExclusionPattern geneLower ind then false
  else if geneLower == lit "braf" then
    if pyIn (lit "v600") ind then brafV600Class.contains variantUpper
    else false
  else if geneLower == lit "kras" || geneLower == lit "nras" then
    if pyIn (lit "g12c") ind then variantUpper == lit "G12C"
    else if [geneLower ++ lit " mutation", geneLower ++ lit "-mutated",
        geneLower ++ lit "-positive"].any (fun p => pyIn p ind) then
      !(pyIn (lit "wild-type") ind)
    else false
  else if geneLower == lit "kit" then
    if pyIn (lo variant) ind then true
    else if (match kitExonMap.lookup variantUpper with
        | some e => pyIn (lit "exon " ++ e) ind
        | none => false) then true
    else if [lit "kit-positive", lit "kit-mutated", lit "kit mutation",
        lit "kit (cd117)"].any (fun p => pyIn p ind) then true
    else false
  else if geneLower == lit "egfr" then
    if pyIn (lo variant) ind then true
    else if ([lit "L858R", lit "EXON19DEL"].contains variantUpper ||
          [lit "DEL19", lit "E746"].any (fun p => pyIn p variantUpper)) &&
        (pyIn (lit "common") ind || pyIn (lit "exon 19") ind || pyIn (lit "l858r") ind) then
      true
    else if [lit "G719A", lit "G719C", lit "G719S", lit "L861Q",
          lit "S768I"].contains variantUpper &&
        (pyIn (lit "uncommon") ind || pyIn (lit "g719") ind) then true
    else if [lit "T790M", lit "C797S"].contains variantUpper &&
        (pyIn (lit "t790m") ind || pyIn (lit "resistance") ind) then true
    else if (pyIn (lit "egfr mutation") ind || pyIn (lit "egfr-mutated") ind) &&
        !(pyIn (lit "specific") ind) && !(pyIn (lit "particular") ind) then true
    else false
  else true

/-- The `wildtype_patterns` of `_check_fda_requires_wildtype`
(`evidence.py` lines 178-186). -/
def wildtypePatterns (geneLower : Str) : List Str :=
  [geneLower ++ lit " wild-type", geneLower ++ lit "-wild-type",
   lit "wild type " ++ geneLower, lit "without " ++ geneLower ++ lit " mutation",
   geneLower ++ lit "-negative", lit "ras wild-type", lit "ras wildtype"]

/-- The drug list accumulated by `Evidence._check_fda_requires_wildtype`
(`evidence.py` lines 163-193); the returned flag is its non-emptiness. -/
def fdaWildtypeDrugs (E : Evidence) (tumorType : Str) : List Str :=
  E.fda_approvals.filterMap fun a =>
    if parseIndicationTumorMatch a.indication tumorType then
      let il := lo a.indication
      if (wildtypePatterns (lo E.gene)).any (fun p => pyIn p il) then
        let drug := if !a.brand_name.isEmpty then a.brand_name else a.generic_name
        if !drug.isEmpty then some drug else none
      else none
    else none

/-- The `investigational_pairs` table of `is_investigational_only`
(`evidence.py` lines 204-217); every stored value is `True`, so only the
keys matter. -/
def investigationalPairs : List (Str × Str) :=
  [(lit "kras", lit "pancreatic"), (lit "kras", lit "pancreas"),
   (lit "nras", lit "melanoma"), (lit "tp53", lit "*"),
   (lit "apc", lit "colorectal"), (lit "apc", lit "colon"),
   (lit "vhl", lit "renal"), (lit "vhl", lit "kidney"),
   (lit "smad4", lit "pancreatic"), (lit "smad4", lit "pancreas"),
   (lit "cdkn2a", lit "melanoma"), (lit "arid1a", lit "*")]

/-- `Evidence.is_investigational_only` (`evidence.py` lines 195-224):
gene equality plus `*`-wildcard or substring tumor match.  The loop only
returns `True`, so `any` is faithful. -/
def isInvestigationalOnly (E : Evidence) (tumorType : Str) : Bool :=
  let geneLower := lo E.gene
  let tumorLower := lo tumorType
  investigationalPairs.any fun gt =>
    (gt.1 == geneLower) && ((gt.2 == lit "*") || pyIn gt.2 tumorLower)

/-- `Evidence.has_fda_for_variant_in_tumor` (`evidence.py` lines 226-303).
Each Python strategy loop breaks on its first success and otherwise
leaves the flag as the last computed value, which over the whole loop is
exactly `any`. -/
def hasFdaForVariantInTumor (E : Evidence) (tumorType : Str) : Bool :=
  if tumorType.isEmpty then false
  else if isInvestigationalOnly E tumorType then false
  else if E.fda_approvals.any (fun a =>
      parseIndicationTumorMatch a.indication tumorType &&
      (let il := lo a.indication
       pyIn (lo E.variant) il ||
         (pyIn (lo E.gene) il && variantMatchesApprovalClass E.gene E.variant il))) then
    true
  else if E.civic.any (fun ev =>
      (ev.evidence_level == lit "A") && (ev.evidence_type == lit "PREDICTIVE") &&
      tumorMatches tumorType ev.disease &&
      (let sig := up ev.clinical_significance
       (pyIn (lit "SENSITIVITY") sig || pyIn (lit "RESPONSE") sig) &&
         (let desc := lo ev.description
          pyIn (lo E.variant) desc || pyIn (lo E.gene) desc))) then
    true
  else if E.civic_assertions.any (fun a =>
      (a.amp_tier == lit "Tier I") && (a.assertion_type == lit "PREDICTIVE") &&
      tumorMatches tumorType a.disease &&
      (let sig := up a.significance
       (pyIn (lit "SENSITIVITY") sig || pyIn (lit "RESPONSE") sig) ||
         (pyIn (lit "RESISTANCE") sig && !a.therapies.isEmpty))) then
    true
  else if E.cgi_biomarkers.any (fun b =>
      b.fda_approved && !b.tumor_type.isEmpty && tumorMatches tumorType b.tumor_type &&
      (!b.association.isEmpty && !(pyIn (lit "RESIST") (up b.association))) &&
      (let alt := up b.alteration
       pyIn (up E.variant) alt || pyIn (lit "MUT") alt)) then
    true
  else false

/-- The values of `stats['dominant_signal']`
(`none / sensitivity_only / resistance_only / sensitivity_dominant /
resistance_dominant / mixed`). -/
inductive DominantSignal where
  | noSignal
  | sensitivityOnly
  | resistanceOnly
  | sensitivityDominant
  | resistanceDominant
  | mixed
deriving DecidableEq, Repr

/-- A VICC entry counted as sensitivity by `compute_evidence_stats`. -/
def viccCountsSens (v : VICCEvidence) : Bool := v.is_sensitivity

/-- A VICC entry counted as resistance by `compute_evidence_stats`
(the `elif` arm). -/
def viccCountsRes (v : VICCEvidence) : Bool := !v.is_sensitivity && v.is_resistance

/-- A CIViC entry counted as resistance by `compute_evidence_stats`. -/
def civicCountsRes (ev : CIViCEvidence) : Bool :=
  (ev.evidence_type == lit "PREDICTIVE") &&
    pyIn (lit "RESISTANCE") (up ev.clinical_significance)

/-- A CIViC entry counted as sensitivity by `compute_evidence_stats`
(the `elif` arm after the resistance test). -/
def civicCountsSens (ev : CIViCEvidence) : Bool :=
  (ev.evidence_type == lit "PREDICTIVE") &&
    !(pyIn (lit "RESISTANCE") (up ev.clinical_significance)) &&
    (pyIn (lit "SENSITIVITY") (up ev.clinical_significance) ||
      pyIn (lit "RESPONSE") (up ev.clinical_significance))

/-- The fields of the `compute_evidence_stats` result read by any
embedded consumer (`resistance_count`, `sensitivity_count`,
`dominant_signal`, `has_fda_approved`); the per-level breakdown and the
conflict list are computed by the Python code but never read by the
tier-hint or resistance logic. -/
structure EvidenceStats where
  sensitivity_count : Nat
  resistance_count : Nat
  dominant_signal : DominantSignal
  has_fda_approved : Bool
deriving Repr, DecidableEq

/-- `Evidence.compute_evidence_stats` (`evidence.py` lines 436-511).
The Python `tumor_type` parameter is never read in the body.  The 80%
thresholds `count >= total * 0.8` are modelled exactly as
`5 * count ≥ 4 * total`; the Python float product `total * 0.8` agrees
with this on every realistically representable total. -/
def computeEvidenceStats (E : Evidence) (_tumorType : Str) : EvidenceStats :=
  let s := E.vicc.countP viccCountsSens + E.civic.countP civicCountsSens
  let r := E.vicc.countP viccCountsRes + E.civic.countP civicCountsRes
  let total := s + r
  let dom : DominantSignal :=
    if total = 0 then .noSignal
    else if s = 0 then .resistanceOnly
    else if r = 0 then .sensitivityOnly
    else if 5 * s ≥ 4 * total then .sensitivityDominant
    else if 5 * r ≥ 4 * total then .resistanceDominant
    else .mixed
  { sensitivity_count := s
    resistance_count := r
    dominant_signal := dom
    has_fda_approved :=
      !E.fda_approvals.isEmpty || E.cgi_biomarkers.any (·.fda_approved) }

/-- The CGI arm of the `drugs_excluded` accumulation
(`evidence.py` lines 329-338). -/
def cgiResistanceDrugs (E : Evidence) (tumorType : Str) : List Str :=
  E.cgi_biomarkers.filterMap fun b =>
    if b.fda_approved && !b.association.isEmpty &&
        pyIn (lit "RESIST") (up b.association) then
      if !tumorType.isEmpty && !b.tumor_type.isEmpty then
        if tumorMatches tumorType b.tumor_type && !b.drug.isEmpty then some b.drug
        else none
      else if tumorType.isEmpty && !b.drug.isEmpty then some b.drug
      else none
    else none

/-- The VICC arm of the `drugs_excluded` accumulation
(`evidence.py` lines 340-345). -/
def viccResistanceDrugs (E : Evidence) (tumorType : Str) : List Str :=
  if tumorType.isEmpty then []
  else
    ((E.vicc.filter fun ev =>
        ev.is_resistance && tumorMatches tumorType ev.disease).map (·.drugs)).flatten

/-- The CIViC arm of the `drugs_excluded` accumulation
(`evidence.py` lines 347-354). -/
def civicResistanceDrugs (E : Evidence) (tumorType : Str) : List Str :=
  if tumorType.isEmpty then []
  else
    ((E.civic.filter fun ev =>
        (ev.evidence_type == lit "PREDICTIVE") &&
        pyIn (lit "RESISTANCE") (up ev.clinical_significance) &&
        tumorMatches tumorType ev.disease).map (·.drugs)).flatten

/-- The full `drugs_excluded` accumulation of
`is_resistance_marker_without_targeted_therapy`, in source order,
before the `set`/falsy filter/`[:5]` post-processing. -/
def drugsExcludedRaw (E : Evidence) (tumorType : Str) : List Str :=
  (if !tumorType.isEmpty then fdaWildtypeDrugs E tumorType else []) ++
    cgiResistanceDrugs E tumorType ++ viccResistanceDrugs E tumorType ++
    civicResistanceDrugs E tumorType

/-- `Evidence.is_resistance_marker_without_targeted_therapy`
(`evidence.py` lines 305-358).  Python's `list(set(...))[:5]` has
unspecified element order; `dedup` keeps one representative per drug,
and only non-emptiness (the returned flag) is order-independent and
claim-relevant. -/
def isResistanceMarkerWithoutTargetedTherapy (E : Evidence) (tumorType : Str) :
    Bool × List Str :=
  let stats := computeEvidenceStats E tumorType
  if stats.resistance_count = 0 then (false, [])
  else if (stats.dominant_signal ≠ .resistanceOnly ∧
      stats.dominant_signal ≠ .resistanceDominant) ∧ stats.resistance_count < 3 then
    (false, [])
  else if hasFdaForVariantInTumor E tumorType then (false, [])
  else
    let ds := (((drugsExcludedRaw E tumorType).filter fun d => !d.isEmpty).dedup).take 5
    (!ds.isEmpty, ds)

/-- `Evidence.is_prognostic_or_diagnostic_only` (`evidence.py`
lines 360-383). -/
def isPrognosticOrDiagnosticOnly (E : Evidence) : Bool :=
  let hasPredictive :=
    E.civic.any (fun ev => (ev.evidence_type == lit "PREDICTIVE") && !ev.drugs.isEmpty) ||
    E.civic_assertions.any (fun a =>
      (a.assertion_type == lit "PREDICTIVE") && !a.therapies.isEmpty) ||
    (!E.vicc.isEmpty && E.vicc.any (fun v =>
      !v.drugs.isEmpty && (v.is_sensitivity || v.is_resistance))) ||
    !E.cgi_biomarkers.isEmpty ||
    !E.fda_approvals.isEmpty
  !hasPredictive

/-- `', '.flatten(...)`. -/
def joinCommaSpace : List Str → Str
  | [] => []
  | [d] => d
  | d :: rest => d ++ lit ", " ++ joinCommaSpace rest

/-- The first branch message of `get_tier_hint`. -/
def tierHintInvestigational : Str :=
  lit "TIER III INDICATOR: Known investigational-only (no approved therapy exists)"

/-- `Evidence.get_tier_hint` (`evidence.py` lines 385-434): the rules in
source order, first match wins. -/
def getTierHint (E : Evidence) (tumorType : Str) : Str :=
  if isInvestigationalOnly E tumorType then tierHintInvestigational
  else if hasFdaForVariantInTumor E tumorType then
    lit "TIER I INDICATOR: FDA-approved therapy FOR this variant in this tumor type"
  else
    let rm := isResistanceMarkerWithoutTargetedTherapy E tumorType
    if rm.1 then
      let drugsStr := if !rm.2.isEmpty then joinCommaSpace rm.2 else lit "standard therapies"
      lit "TIER II INDICATOR: Resistance marker that EXCLUDES " ++ drugsStr ++
        lit " (no FDA-approved therapy FOR this variant)"
    else if isPrognosticOrDiagnosticOnly E then
      lit "TIER III INDICATOR: Prognostic/diagnostic only - no therapeutic impact"
    else if !E.fda_approvals.isEmpty || E.cgi_biomarkers.any (·.fda_approved) ||
        E.civic.any (fun ev =>
          (ev.evidence_level == lit "A") && (ev.evidence_type == lit "PREDICTIVE")) then
      lit "TIER II INDICATOR: FDA-approved therapy exists in different tumor type (off-label potential)"
    else
      let stats := computeEvidenceStats E tumorType
      let hasStrong := E.civic.any fun ev =>
        (ev.evidence_type == lit "PREDICTIVE") &&
          ((ev.evidence_level == lit "A") || (ev.evidence_level == lit "B"))
      if hasStrong || stats.sensitivity_count > 0 then
        lit "TIER II/III: Strong evidence but no FDA approval - evaluate trial data and guidelines"
      else lit "TIER III: Investigational/emerging evidence only"

/-- Claim C1's reading of condition (1): the aggregated signal is
resistance-dominant, *meaning 100% resistance, or at least 3 resistance
entries with no sensitivity* (both disjuncts require zero sensitivity
entries).  Stated from the claim text for comparison with the code. -/
def claimC1SignalCondition (E : Evidence) (tumorType : Str) : Prop :=
  ((computeEvidenceStats E tumorType).resistance_count > 0 ∧
      (computeEvidenceStats E tumorType).sensitivity_count = 0) ∨
    ((computeEvidenceStats E tumorType).resistance_count ≥ 3 ∧
      (computeEvidenceStats E tumorType).sensitivity_count = 0)

/-- Claim C1's reading of condition (3): a drug excluded via a curated
Resistant biomarker in this tumor, a wild-type FDA-label requirement, or
a harmonized-KB (VICC) resistance association for this tumor.  Stated
from the claim text for comparison with the code. -/
def claimC1ExclusionCondition (E : Evidence) (tumorType : Str) : Prop :=
  (cgiResistanceDrugs E tumorType).filter (fun d => !d.isEmpty) ≠ [] ∨
    (fdaWildtypeDrugs E tumorType).filter (fun d => !d.isEmpty) ≠ [] ∨
    (viccResistanceDrugs E tumorType).filter (fun d => !d.isEmpty) ≠ []

/-- The gate the code actually applies before looking for excluded
drugs: a positive resistance count, and either a resistance-only /
resistance-dominant aggregated signal or at least three resistance
entries (regardless of sensitivity). -/
def resistanceGate (E : Evidence) (tumorType : Str) : Prop :=
  (computeEvidenceStats E tumorType).resistance_count ≥ 1 ∧
    ((computeEvidenceStats E tumorType).dominant_signal = .resistanceOnly ∨
      (computeEvidenceStats E tumorType).dominant_signal = .resistanceDominant ∨
      (computeEvidenceStats E tumorType).resistance_count ≥ 3)

/-- At least one non-empty drug name is collected by any of the four
exclusion arms (wild-type FDA labels, CGI Resistant biomarkers, VICC
resistance, CIViC predictive resistance). -/
def someDrugExcluded (E : Evidence) (tumorType : Str) : Prop :=
  (drugsExcludedRaw E tumorType).filter (fun d => !d.isEmpty) ≠ []

/-- Concrete counterexample bundle for claim C1: four VICC resistance
entries against one sensitivity entry (80%, `resistance_dominant`), no
FDA approval for the variant, and one CGI FDA-approved Resistant
biomarker in the queried tumor. -/
def resistanceCexEvidence : Evidence :=
  { gene := lit "KRAS"
    variant := lit "G12D"
    vicc :=
      [{ disease := lit "melanoma", drugs := [lit "dabrafenib"],
         evidence_level := lit "B", is_sensitivity := false, is_resistance := true },
       { disease := lit "melanoma", drugs := [lit "trametinib"],
         evidence_level := lit "B", is_sensitivity := false, is_resistance := true },
       { disease := lit "melanoma", drugs := [lit "vemurafenib"],
         evidence_level := lit "C", is_sensitivity := false, is_resistance := true },
       { disease := lit "melanoma", drugs := [lit "binimetinib"],
         evidence_level := lit "C", is_sensitivity := false, is_resistance := true },
       { disease := lit "melanoma", drugs := [lit "cobimetinib"],
         evidence_level := lit "D", is_sensitivity := true, is_resistance := false }]
    cgi_biomarkers :=
      [{ alteration := lit "KRAS:G12D", drug := lit "Cetuximab",
         association := lit "Resistant", tumor_type := lit "melanoma",
         fda_approved := true }] }

/-- Concrete witness bundle for claim C2: a KRAS bundle carrying an FDA
approval, queried in a pancreatic tumor (an investigational-only pair). -/
def investigationalWitnessEvidence : Evidence :=
  { gene := lit "KRAS"
    variant := lit "G12C"
    fda_approvals :=
      [{ drug_name := lit "LUMAKRAS", brand_name := lit "LUMAKRAS",
         generic_name := lit "sotorasib",
         indication := lit "kras g12c-mutated locally advanced or metastatic non-small cell lung cancer" }]
    vicc :=
      [{ disease := lit "non-small cell lung cancer", drugs := [lit "sotorasib"],
         evidence_level := lit "A", is_sensitivity := true, is_resistance := false }] }

/-! ## Curated-biomarker alteration matching (`src/tumorboard/api/cgi.py`) -/

/-- Fuel-bounded body of Python `s.replace(pat, '')`: non-overlapping
left-to-right removal.  Each step consumes at least one character, so
`s.length` fuel always suffices; an empty pattern removes nothing,
matching Python `replace('', '')`. -/
def removeAllAux (pat : Str) : Nat → Str → Str
  | 0, _ => []
  | _, [] => []
  | fuel + 1, c :: t =>
    if isPre pat (c :: t) && !pat.isEmpty then
      removeAllAux pat fuel ((c :: t).drop pat.length)
    else c :: removeAllAux pat fuel t

/-- Python `s.replace(pat, '')`. -/
def removeAll (pat s : Str) : Str := removeAllAux pat s.length s

/-- Python `s.split(sep)` for a single-character separator. -/
def splitOnChar (sep : Char) : Str → List Str
  | [] => [[]]
  | c :: t =>
    if c = sep then [] :: splitOnChar sep t
    else
      match splitOnChar sep t with
      | h :: rest => (c :: h) :: rest
      | [] => [[c]]

/-- Python `re.match` of `^([A-Z])(\d+)([A-Z])$` (no IGNORECASE) as used
for the position wildcard, returning the digit group.  Python's `$`
matches at the end of the string and also just before one newline that
ends the string, so the letter may be followed by a single trailing
newline. -/
def parsePosVariant (v : Str) : Option Str :=
  match v with
  | [] => none
  | c :: rest =>
    if isUpperAlpha c then
      match rest.takeWhile isDigitChar, rest.dropWhile isDigitChar with
      | [], _ => none
      | ds, [a] => if isUpperAlpha a then some ds else none
      | ds, [a, nl] => if isUpperAlpha a && nl = '\n' then some ds else none
      | _, _ => none
    else none

/-- The four per-element rules inside the `for part in parts` loop of
`CGIClient._variant_matches` (`api/cgi.py` lines 170-213): exact match,
lone-dot gene wildcard, trailing-dot codon wildcard (one extra
character), and `.N.` position wildcard. -/
def cgiElementMatches (part vUp : Str) : Bool :=
  (part == vUp) ||
  (part == lit ".") ||
  ((part.getLast? == some '.') && !(part.head? == some '.') &&
    isPre part.dropLast vUp && (vUp.length == part.dropLast.length + 1)) ||
  ((part.head? == some '.') && (part.getLast? == some '.') &&
    decide (2 < part.length) &&
    (let inner := (part.drop 1).dropLast
     !inner.isEmpty && inner.all isDigitChar &&
       (match parsePosVariant vUp with
        | some ds => ds == inner
        | none => false)))

/-- The per-part preprocessing of `_variant_matches`: strip, upper-case,
and keep only the segment after the last colon. -/
def cgiPartNormalize (part1 : Str) : Str :=
  if pyIn (lit ":") part1 then (splitOnChar ':' part1).getLastD [] else part1

/-- `CGIClient._variant_matches` (`api/cgi.py` lines 142-214): the query
variant is upper-cased with every `P.` occurrence removed, the alteration
is stripped of `GENE:` occurrences and split on commas, and each
non-empty normalised element is tried against the four rules (the loop
returns on the first success, i.e. `any`). -/
def cgiVariantMatches (cgiAlteration gene variant : Str) : Bool :=
  if cgiAlteration.isEmpty then false
  else
    let geneUpper := up gene
    let variantUpper := removeAll (lit "P.") (up variant)
    let parts := splitOnChar ',' (removeAll (geneUpper ++ lit ":") cgiAlteration)
    parts.any fun part0 =>
      let part1 := up (pyStrip part0)
      if part1.isEmpty then false
      else cgiElementMatches (cgiPartNormalize part1) variantUpper

/-- Modelled from the claim text of C8 (refinement comparison only): the
same matcher, but with the query variant normalised by *stripping a
leading `p.` prefix* — the claim's wording — where the code removes every
`P.` occurrence. -/
def claimC8VariantMatches (cgiAlteration gene variant : Str) : Bool :=
  if cgiAlteration.isEmpty then false
  else
    let geneUpper := up gene
    let u := up variant
    let variantUpper := if isPre (lit "P.") u then u.drop 2 else u
    let parts := splitOnChar ',' (removeAll (geneUpper ++ lit ":") cgiAlteration)
    parts.any fun part0 =>
      let part1 := up (pyStrip part0)
      if part1.isEmpty then false
      else cgiElementMatches (cgiPartNormalize part1) variantUpper

/-- The declarative reading of one element of the alteration DSL: exact
equality, lone dot, trailing-dot codon wildcard matching exactly one
extra character, and `.N.` matching a single-letter substitution at
position `N` — where, as the regex end anchor allows, the variant may
carry one trailing newline after the substituted letter. -/
def cgiElementSpec (part vUp : Str) : Prop :=
  part = vUp ∨
  part = lit "." ∨
  (part.getLast? = some '.' ∧ part.head? ≠ some '.' ∧
    ∃ c : Char, vUp = part.dropLast ++ [c]) ∨
  (∃ ds : Str, part = '.' :: (ds ++ ['.']) ∧ ds ≠ [] ∧
    (∀ d ∈ ds, isDigitChar d = true) ∧
    ∃ (r a : Char),
      (vUp = r :: (ds ++ [a]) ∨ vUp = r :: (ds ++ [a, '\n'])) ∧
      isUpperAlpha r = true ∧ isUpperAlpha a = true)

/-- The stripped and `p.`-prefix-stripped string that
`normalize_protein_change` actually parses (its first two statements). -/
def pCore (v0 : Str) : Str :=
  let v1 := pyStrip v0
  if isPre (lit "p.") (lo v1) then v1.drop 2 else v1

/-- The six keyword examples of spec §8 property 3; each is caught by one
of the four structural checks of `classify_variant_type`. -/
def sixRejectKeywords : List Str :=
  [lit "fusion", lit "amplification", lit "rearrangement",
   lit "overexpression", lit "exon 14 skipping", lit "truncating"]

/-- The variant types produced by the four structural keyword checks of
`classify_variant_type`; none of them is in `ALLOWED_VARIANT_TYPES`. -/
def structuralSpliceTypes : List VariantType :=
  [.fusion, .amplification, .truncating, .splice]

/-- The splice-trigger keywords of `classify_variant_type`. -/
def spliceKeywords : List Str := [lit "splice", lit "exon", lit "skip"]

/-- An upper-case letter or the star: the characters that can appear as
the reference or alternate amino acid of a canonical short form. -/
def isCanonAA (c : Char) : Bool := isUpperAlpha c || c = '*'

/-- The body of `normalize_protein_change` after its two preprocessing
statements (strip and `p.` strip); `normalizeProteinChange` is this
applied to `pCore`. -/
def npcCore (variant : Str) : ProteinChange :=
  match parseMissense1 variant with
  | some (r, ds, a) =>
    let refc := upChar r
    let altc := upChar a
    let sf := refc :: (ds ++ [altc])
    { short_form := some sf
      hgvs_protein := some (lit "p." ++ sf)
      long_form :=
        match aminoAcid1to3.lookup refc, aminoAcid1to3.lookup altc with
        | some r3, some a3 => some (r3 ++ ds ++ a3)
        | _, _ => none
      position := some (digitsToNat ds)
      ref_aa := some [refc]
      alt_aa := some [altc]
      is_missense := altc != '*' }
  | none =>
    match parseMissense3 variant with
    | some (r3raw, ds, a3raw) =>
      let ref3 := up r3raw
      let alt3 := up a3raw
      match aminoAcid3to1.lookup ref3, aminoAcid3to1.lookup alt3 with
      | some refc, some altc =>
        { short_form := some (refc :: (ds ++ [altc]))
          hgvs_protein := some (lit "p." ++ (refc :: (ds ++ [altc])))
          long_form := some (ref3 ++ ds ++ alt3)
          position := some (digitsToNat ds)
          ref_aa := some [refc]
          alt_aa := some [altc]
          is_missense := altc != '*' }
      | _, _ => emptyProteinChange
    | none => emptyProteinChange

/-- All fourteen substring keywords tested by `classify_variant_type`
before its regex fallbacks. -/
def classifyKeywords : List Str :=
  [lit "fusion", lit "fus", lit "rearrangement",
   lit "amp", lit "amplification", lit "overexpression",
   lit "truncat",
   lit "splice", lit "exon", lit "skip",
   lit "fs", lit "del", lit "ins", lit "dup"]

/-- One `add_result` step grows each of `Σ TP + Σ FN` and `Σ TP + Σ FP`
by exactly one, in lockstep with `total_cases`. -/
theorem addResult_step (m : MetricsState) (r : ValidationResultRecord) :
    sumTP (addResult m r) + sumFN (addResult m r) = sumTP m + sumFN m + 1 ∧
    sumTP (addResult m r) + sumFP (addResult m r) = sumTP m + sumFP m + 1 ∧
    (addResult m r).total_cases = m.total_cases + 1 := by
  cases hc : r.is_correct <;>
    cases he : r.expected_tier <;>
      cases hp : r.predicted_tier <;>
        simp [addResult, sumTP, sumFN, sumFP, hc, he, hp] <;> omega

/-- Folding `add_result` over any run preserves the two conservation
identities relative to `total_cases`. -/
theorem conservation_aux (rs : List ValidationResultRecord) (m : MetricsState)
    (h1 : sumTP m + sumFN m = m.total_cases)
    (h2 : sumTP m + sumFP m = m.total_cases) :
    sumTP (rs.foldl addResult m) + sumFN (rs.foldl addResult m) =
        (rs.foldl addResult m).total_cases ∧
    sumTP (rs.foldl addResult m) + sumFP (rs.foldl addResult m) =
        (rs.foldl addResult m).total_cases := by
  induction rs generalizing m with
  | nil => exact ⟨h1, h2⟩
  | cons r rs ih =>
    have hstep := addResult_step m r
    exact ih (addResult m r) (by omega) (by omega)

/-- C4: for valid tiers (Tier I-IV) the tier distance lies in `{0,1,2,3}`
and is `0` exactly when the prediction is correct (exact tier equality,
as `Validator.validate_single` computes `is_correct`); whenever either
tier is `Unknown` the distance is the sentinel `999`. -/
theorem tier_distance_bounds (e p : ActionabilityTier) :
    ((e ≠ ActionabilityTier.unknown ∧ p ≠ ActionabilityTier.unknown) →
      (tierDistance e p ∈ ([0, 1, 2, 3] : List Int) ∧
        (tierDistance e p = 0 ↔ validatorIsCorrect e p = true))) ∧
    ((e = ActionabilityTier.unknown ∨ p = ActionabilityTier.unknown) →
      tierDistance e p = 999) := by
  cases e <;> cases p <;> decide

/-- Closed instance of `tier_distance_bounds` with every hypothesis
discharged on concrete tiers. -/
theorem tier_distance_bounds_witness :
    (tierDistance ActionabilityTier.tierI ActionabilityTier.tierIV ∈
        ([0, 1, 2, 3] : List Int) ∧
      (tierDistance ActionabilityTier.tierI ActionabilityTier.tierIV = 0 ↔
        validatorIsCorrect ActionabilityTier.tierI ActionabilityTier.tierIV = true)) ∧
    tierDistance ActionabilityTier.unknown ActionabilityTier.tierII = 999 :=
  ⟨(tier_distance_bounds ActionabilityTier.tierI ActionabilityTier.tierIV).1
      (by decide),
    (tier_distance_bounds ActionabilityTier.unknown ActionabilityTier.tierII).2
      (by decide)⟩

/-- C5: over any validation run starting from a fresh `ValidationMetrics`,
the confusion matrix is conserved: `Σ TP + Σ FN = total_cases` and
`Σ TP + Σ FP = total_cases`. -/
theorem confusion_matrix_conservation (rs : List ValidationResultRecord) :
    sumTP (rs.foldl addResult initialMetrics) +
        sumFN (rs.foldl addResult initialMetrics) =
      (rs.foldl addResult initialMetrics).total_cases ∧
    sumTP (rs.foldl addResult initialMetrics) +
        sumFP (rs.foldl addResult initialMetrics) =
      (rs.foldl addResult initialMetrics).total_cases :=
  conservation_aux rs initialMetrics (by decide) (by decide)

/-- C10: `TierMetrics.calculate` never divides by zero: each of the three
divisions is guarded, and a zero denominator produces a `0.0` score. -/
theorem tier_metrics_calculate_guarded (tp fp fn : Nat) :
    (tp + fp = 0 → (tierMetricsCalculate tp fp fn).precision = 0) ∧
    (tp + fn = 0 → (tierMetricsCalculate tp fp fn).recall_score = 0) ∧
    ((tierMetricsCalculate tp fp fn).precision +
          (tierMetricsCalculate tp fp fn).recall_score = 0 →
      (tierMetricsCalculate tp fp fn).f1_score = 0) := by
  refine ⟨fun h => ?_, fun h => ?_, fun h => ?_⟩
  · simp [tierMetricsCalculate, tierPrecision, h]
  · simp [tierMetricsCalculate, tierRecall, h]
  · simp only [tierMetricsCalculate] at h ⊢
    rw [h]
    simp

/-- Closed instance of `tier_metrics_calculate_guarded` at all-zero
counters, discharging every hypothesis. -/
theorem tier_metrics_calculate_guarded_witness :
    (tierMetricsCalculate 0 0 0).precision = 0 ∧
    (tierMetricsCalculate 0 0 0).recall_score = 0 ∧
    (tierMetricsCalculate 0 0 0).f1_score = 0 :=
  ⟨(tier_metrics_calculate_guarded 0 0 0).1 rfl,
    (tier_metrics_calculate_guarded 0 0 0).2.1 rfl,
    (tier_metrics_calculate_guarded 0 0 0).2.2
      (by rw [(tier_metrics_calculate_guarded 0 0 0).1 rfl,
              (tier_metrics_calculate_guarded 0 0 0).2.1 rfl]; ring)⟩

/-! ## Substring toolbox -/

/-- `isPre` is prefix decomposition. -/
theorem isPre_iff (a b : Str) : isPre a b = true ↔ ∃ r, b = a ++ r := by
  induction a generalizing b with
  | nil => simp [isPre]
  | cons x xs ih =>
    cases b with
    | nil =>
      simp only [isPre, List.cons_append]
      constructor
      · intro h; cases h
      · rintro ⟨r, h⟩; cases h
    | cons y ys =>
      simp only [isPre, Bool.and_eq_true, decide_eq_true_eq, ih, List.cons_append,
        List.cons.injEq]
      constructor
      · rintro ⟨rfl, r, rfl⟩; exact ⟨r, rfl, rfl⟩
      · rintro ⟨r, rfl, rfl⟩; exact ⟨rfl, r, rfl⟩

/-- `pyIn` is substring decomposition. -/
theorem pyIn_iff (sub s : Str) : pyIn sub s = true ↔ ∃ l r, s = l ++ sub ++ r := by
  induction s with
  | nil =>
    simp only [pyIn, decide_eq_true_eq]
    constructor
    · rintro rfl; exact ⟨[], [], rfl⟩
    · rintro ⟨l, r, h⟩
      rcases List.append_eq_nil.mp h.symm with ⟨h1, h2⟩
      exact (List.append_eq_nil.mp h1).2
  | cons c t ih =>
    rw [pyIn]
    simp only [Bool.or_eq_true, ih, isPre_iff]
    constructor
    · rintro (⟨r, hr⟩ | ⟨l, r, rfl⟩)
      · exact ⟨[], r, by simp [hr]⟩
      · exact ⟨c :: l, r, rfl⟩
    · rintro ⟨l, r, hl⟩
      cases l with
      | nil => exact Or.inl ⟨r, by simpa using hl⟩
      | cons d l' =>
        right
        simp only [List.cons_append, List.cons.injEq] at hl
        exact ⟨l', r, hl.2⟩

/-- Substring containment is transitive along prefixes. -/
theorem pyIn_of_isPre (a b s : Str) (hab : isPre a b = true)
    (hbs : pyIn b s = true) : pyIn a s = true := by
  rw [isPre_iff] at hab
  rw [pyIn_iff] at hbs ⊢
  obtain ⟨t, rfl⟩ := hab
  obtain ⟨l, r, rfl⟩ := hbs
  exact ⟨l, t ++ r, by simp⟩

/-- A keyword that `.lower()` leaves unchanged survives lowering of the
containing string. -/
theorem pyIn_lo_of_fixed (kw v : Str) (hfix : lo kw = kw)
    (h : pyIn kw v = true) : pyIn kw (lo v) = true := by
  rw [pyIn_iff] at h ⊢
  obtain ⟨l, r, rfl⟩ := h
  refine ⟨lo l, lo r, ?_⟩
  simp only [lo, List.map_append] at hfix ⊢
  rw [hfix]

/-- Any of the four structural checks firing puts the classification in
`{fusion, amplification, truncating, splice}`. -/
theorem classify_structural_of_checks (v : Str)
    (h : fusionCheck (lo v) = true ∨ ampCheck (lo v) = true ∨
      truncatCheck (lo v) = true ∨ spliceCheck (lo v) = true) :
    classifyVariantType v ∈ structuralSpliceTypes := by
  unfold classifyVariantType
  rcases h1 : fusionCheck (lo v) with _ | _ <;>
    rcases h2 : ampCheck (lo v) with _ | _ <;>
      rcases h3 : truncatCheck (lo v) with _ | _ <;>
        rcases h4 : spliceCheck (lo v) with _ | _ <;>
          simp_all [structuralSpliceTypes]

/-- Structural/splice classifications are outside `ALLOWED_VARIANT_TYPES`. -/
theorem not_allowed_of_structural (t : VariantType)
    (h : t ∈ structuralSpliceTypes) : t ∉ allowedVariantTypes := by
  fin_cases h <;> decide

/-- C7: the engine's input validation (`assess_variant` steps 1-2) fails
exactly when the classified variant type is outside the allowed set
`{missense, nonsense, insertion, deletion, frameshift}`; and every
variant string containing one of the six structural keywords is
classified as a structural/splice type and rejected. -/
theorem assess_variant_rejection (g v : Str) :
    (exceptIsError (assessVariantInputCheck g v) = false ↔
      classifyVariantType v ∈ allowedVariantTypes) ∧
    (∀ kw ∈ sixRejectKeywords, pyIn kw v = true →
      classifyVariantType v ∈ structuralSpliceTypes ∧
        exceptIsError (assessVariantInputCheck g v) = true) := by
  have hval : (normalizeVariant g v).variant_type = classifyVariantType v := rfl
  constructor
  · by_cases h : classifyVariantType v ∈ allowedVariantTypes
    · simp [assessVariantInputCheck, exceptIsError, hval, h]
    · simp [assessVariantInputCheck, exceptIsError, hval, h]
  · intro kw hkw hin
    have hinlo : pyIn kw (lo v) = true := by
      apply pyIn_lo_of_fixed kw v ?_ hin
      fin_cases hkw <;> decide
    have hstruct : classifyVariantType v ∈ structuralSpliceTypes := by
      apply classify_structural_of_checks
      fin_cases hkw
      · exact Or.inl (by simp [fusionCheck, hinlo])
      · exact Or.inr (Or.inl (by simp [ampCheck, hinlo]))
      · exact Or.inl (by simp [fusionCheck, hinlo])
      · exact Or.inr (Or.inl (by simp [ampCheck, hinlo]))
      · refine Or.inr (Or.inr (Or.inr ?_))
        have hexon : pyIn (lit "exon") (lo v) = true :=
          pyIn_of_isPre (lit "exon") (lit "exon 14 skipping") (lo v) (by decide) hinlo
        simp [spliceCheck, hexon]
      · refine Or.inr (Or.inr (Or.inl ?_))
        have htr : pyIn (lit "truncat") (lo v) = true :=
          pyIn_of_isPre (lit "truncat") (lit "truncating") (lo v) (by decide) hinlo
        simpa [truncatCheck] using htr
    refine ⟨hstruct, ?_⟩
    have hnot : classifyVariantType v ∉ allowedVariantTypes :=
      not_allowed_of_structural _ hstruct
    simp [assessVariantInputCheck, exceptIsError, hval, hnot]

/-- Closed instance of `assess_variant_rejection`: `exon 14 skipping` is
classified structural/splice and rejected before any evidence fetch. -/
theorem assess_variant_rejection_witness :
    classifyVariantType (lit "exon 14 skipping") ∈ structuralSpliceTypes ∧
      exceptIsError
        (assessVariantInputCheck (lit "MET") (lit "exon 14 skipping")) = true :=
  (assess_variant_rejection (lit "MET") (lit "exon 14 skipping")).2
    (lit "exon 14 skipping") (by decide) (by decide)

/-- C9 counterexample: `exon 1 fusion` contains `exon` but is classified
`fusion`, not `splice` — the fusion check precedes the splice check. -/
theorem splice_claim_counterexample :
    pyIn (lit "exon") (lo (lit "exon 1 fusion")) = true ∧
      classifyVariantType (lit "exon 1 fusion") ≠ VariantType.splice := by
  decide

/-- C9 (amended): every variant string containing `exon`, `splice` or
`skip` (case-insensitively) is classified as a structural/splice type and
rejected by `assess_variant` input validation; when none of the earlier
fusion/amplification/truncation keywords is present, the classification
is exactly `splice` — covering in-scope-looking strings such as
`exon 19 deletion`. -/
theorem splice_keywords_rejected (g v kw : Str) (hkw : kw ∈ spliceKeywords)
    (hin : pyIn kw (lo v) = true) :
    (classifyVariantType v ∈ structuralSpliceTypes ∧
      exceptIsError (assessVariantInputCheck g v) = true) ∧
    (fusionCheck (lo v) = false → ampCheck (lo v) = false →
      truncatCheck (lo v) = false → classifyVariantType v = VariantType.splice) := by
  have hsplice : spliceCheck (lo v) = true := by
    fin_cases hkw <;> simp [spliceCheck, hin]
  have hstruct : classifyVariantType v ∈ structuralSpliceTypes :=
    classify_structural_of_checks v (Or.inr (Or.inr (Or.inr hsplice)))
  have hnot : classifyVariantType v ∉ allowedVariantTypes :=
    not_allowed_of_structural _ hstruct
  refine ⟨⟨hstruct, ?_⟩, ?_⟩
  · have hval : (normalizeVariant g v).variant_type = classifyVariantType v := rfl
    simp [assessVariantInputCheck, exceptIsError, hval, hnot]
  · intro h1 h2 h3
    unfold classifyVariantType
    simp [h1, h2, h3, hsplice]

/-- Closed instance of `splice_keywords_rejected` at `exon 19 deletion`:
despite describing a small deletion, it is classified `splice` and
rejected. -/
theorem splice_keywords_rejected_witness :
    classifyVariantType (lit "exon 19 deletion") = VariantType.splice ∧
      exceptIsError
        (assessVariantInputCheck (lit "EGFR") (lit "exon 19 deletion")) = true :=
  ⟨(splice_keywords_rejected (lit "EGFR") (lit "exon 19 deletion") (lit "exon")
        (by decide) (by decide)).2 (by decide) (by decide) (by decide),
    (splice_keywords_rejected (lit "EGFR") (lit "exon 19 deletion") (lit "exon")
        (by decide) (by decide)).1.2⟩

/-- After dropping empty names, one representative per drug and a cap of
five keep exactly the non-emptiness of the accumulated list. -/
theorem take5_dedup_isEmpty (l : List Str) :
    ((l.dedup.take 5).isEmpty = false) ↔ l ≠ [] := by
  constructor
  · intro h hl
    subst hl
    simp at h
  · intro hl
    rcases List.exists_cons_of_ne_nil hl with ⟨a, t, rfl⟩
    have hd : (a :: t).dedup ≠ [] := by
      intro h
      exact hl ((List.dedup_eq_nil _).mp h)
    rcases List.exists_cons_of_ne_nil hd with ⟨b, u, hbu⟩
    simp [hbu]

/-- C2: `get_tier_hint` evaluates its rules top-down, so any bundle whose
`(gene, tumor_type)` pair is in the investigational-only table receives
the Tier III investigational-only indicator regardless of any other
evidence in the bundle. -/
theorem tier_hint_investigational_only (E : Evidence) (t : Str)
    (h : isInvestigationalOnly E t = true) :
    getTierHint E t = tierHintInvestigational := by
  unfold getTierHint
  rw [if_pos h]

/-- Closed instance of `tier_hint_investigational_only`: a KRAS bundle in
pancreatic cancer gets the Tier III hint although it carries an FDA
approval and Level-A sensitivity evidence. -/
theorem tier_hint_investigational_only_witness :
    getTierHint investigationalWitnessEvidence (lit "pancreatic cancer") =
      tierHintInvestigational :=
  tier_hint_investigational_only investigationalWitnessEvidence
    (lit "pancreatic cancer") (by decide)

/-- C3: for the BRAF rule of `_variant_matches_approval_class`, any
indication containing `wild-type` is refused (global exclusions run
before the gene rule), and absent any exclusion pattern the rule accepts
exactly the indications mentioning `v600` for variants whose upper-cased
form is one of `V600E/V600K/V600D/V600R`. -/
theorem braf_variant_class_matching (variant ind : Str) :
    (pyIn (lit "wild-type") ind = true →
      variantMatchesApprovalClass (lit "BRAF") variant ind = false) ∧
    (hasExclusionPattern (lit "braf") ind = false →
      (variantMatchesApprovalClass (lit "BRAF") variant ind = true ↔
        (pyIn (lit "v600") ind = true ∧ up variant ∈ brafV600Class))) := by
  have hgene : lo (lit "BRAF") = lit "braf" := by decide
  constructor
  · intro h
    have hexc : hasExclusionPattern (lit "braf") ind = true := by
      simp [hasExclusionPattern, exclusionPatterns, h]
    simp [variantMatchesApprovalClass, hgene, hexc]
  · intro hno
    by_cases hv : pyIn (lit "v600") ind = true
    · simp [variantMatchesApprovalClass, hgene, hno, hv, List.contains, List.elem_iff]
    · simp [variantMatchesApprovalClass, hgene, hno, hv]

/-- Closed instance of `braf_variant_class_matching` with each
hypothesis discharged on a concrete indication. -/
theorem braf_variant_class_matching_witness :
    variantMatchesApprovalClass (lit "BRAF") (lit "V600E")
        (lit "melanoma with braf wild-type status") = false ∧
      variantMatchesApprovalClass (lit "BRAF") (lit "V600E")
        (lit "unresectable melanoma with braf v600e mutation") = true :=
  ⟨(braf_variant_class_matching (lit "V600E")
        (lit "melanoma with braf wild-type status")).1 (by decide),
    ((braf_variant_class_matching (lit "V600E")
        (lit "unresectable melanoma with braf v600e mutation")).2
      (by decide)).mpr (by decide)⟩

/-- C1 counterexample: with four resistance entries against one
sensitivity entry the aggregated signal is `resistance_dominant` (80%),
which is neither 100% resistance nor resistance-with-no-sensitivity, yet
the code returns `True`: the claim's biconditional fails on this bundle
in melanoma. -/
theorem resistance_marker_claim_counterexample :
    ¬ ((isResistanceMarkerWithoutTargetedTherapy resistanceCexEvidence
          (lit "melanoma")).1 = true ↔
        (claimC1SignalCondition resistanceCexEvidence (lit "melanoma") ∧
          hasFdaForVariantInTumor resistanceCexEvidence (lit "melanoma") = false ∧
          claimC1ExclusionCondition resistanceCexEvidence (lit "melanoma"))) := by
  unfold claimC1SignalCondition claimC1ExclusionCondition
  decide

/-- C1 (amended): `is_resistance_marker_without_targeted_therapy` returns
`True` exactly when (1) there is at least one resistance entry and the
aggregated signal is resistance-only or resistance-dominant or there are
at least three resistance entries (sensitivity entries notwithstanding);
(2) the variant has no FDA-approved therapy for itself in this tumor per
the variant-class approval matching; and (3) at least one non-empty drug
name is excluded via a wild-type FDA-label requirement, a curated
FDA-approved Resistant biomarker, a harmonized-KB resistance
association, or a CIViC predictive-resistance record. -/
theorem resistance_marker_characterization (E : Evidence) (t : Str) :
    (isResistanceMarkerWithoutTargetedTherapy E t).1 = true ↔
      (resistanceGate E t ∧ hasFdaForVariantInTumor E t = false ∧
        someDrugExcluded E t) := by
  unfold isResistanceMarkerWithoutTargetedTherapy resistanceGate someDrugExcluded
  by_cases h1 : (computeEvidenceStats E t).resistance_count = 0
  · simp only [h1, if_pos rfl]
    simp
  · rw [if_neg h1]
    by_cases h2 : ((computeEvidenceStats E t).dominant_signal ≠ .resistanceOnly ∧
        (computeEvidenceStats E t).dominant_signal ≠ .resistanceDominant) ∧
        (computeEvidenceStats E t).resistance_count < 3
    · rw [if_pos h2]
      simp only [Bool.false_eq_true, false_iff]
      rintro ⟨⟨-, hro | hrd | hge⟩, -, -⟩
      · exact h2.1.1 hro
      · exact h2.1.2 hrd
      · omega
    · rw [if_neg h2]
      by_cases h3 : hasFdaForVariantInTumor E t = true
      · rw [if_pos h3]
        simp only [Bool.false_eq_true, false_iff]
        rintro ⟨-, hfda, -⟩
        rw [h3] at hfda
        cases hfda
      · rw [if_neg h3]
        have hfda : hasFdaForVariantInTumor E t = false := by
          cases hb : hasFdaForVariantInTumor E t
          · rfl
          · exact absurd hb h3
        have hgate : (computeEvidenceStats E t).resistance_count ≥ 1 ∧
            ((computeEvidenceStats E t).dominant_signal = .resistanceOnly ∨
              (computeEvidenceStats E t).dominant_signal = .resistanceDominant ∨
              (computeEvidenceStats E t).resistance_count ≥ 3) := by

          constructor
          · omega
          · by_cases hro : (computeEvidenceStats E t).dominant_signal = .resistanceOnly
            · exact Or.inl hro
            · by_cases hrd : (computeEvidenceStats E t).dominant_signal = .resistanceDominant
              · exact Or.inr (Or.inl hrd)
              · refine Or.inr (Or.inr ?_)
                by_contra hge
                exact h2 ⟨⟨hro, hrd⟩, by omega⟩
        simp only [Bool.not_eq_eq_eq_not, Bool.not_true, List.isEmpty_eq_false] at *
        constructor
        · intro hds
          refine ⟨hgate, hfda, ?_⟩
          exact (take5_dedup_isEmpty _).mp (by simpa using hds)
        · rintro ⟨-, -, hne⟩
          simpa using (take5_dedup_isEmpty _).mpr hne

/-- An upper-case ASCII letter is not a digit. -/
theorem upper_not_digit (c : Char) (h : isUpperAlpha c = true) :
    isDigitChar c = false := by
  simp only [isUpperAlpha, decide_eq_true_eq] at h
  simp only [isDigitChar, decide_eq_false_iff_not]
  omega

/-- Every element of a `takeWhile` satisfies the predicate. -/
theorem all_mem_takeWhile {p : Char → Bool} (l : Str) :
    ∀ a ∈ l.takeWhile p, p a = true := by
  induction l with
  | nil => simp
  | cons c t ih =>
    by_cases hc : p c
    · intro a ha
      rw [List.takeWhile_cons, if_pos hc] at ha
      rcases List.mem_cons.mp ha with rfl | ha
      · exact hc
      · exact ih a ha
    · intro a ha
      rw [List.takeWhile_cons, if_neg hc] at ha
      cases ha

/-- `takeWhile` passes over a block that satisfies the predicate. -/
theorem takeWhile_append_all {p : Char → Bool} (ds t : Str)
    (h : ∀ d ∈ ds, p d = true) :
    (ds ++ t).takeWhile p = ds ++ t.takeWhile p := by
  induction ds with
  | nil => simp
  | cons d ds ih =>
    have hd : p d = true := h d (by simp)
    simp only [List.cons_append, List.takeWhile_cons, hd, if_pos]
    rw [ih fun x hx => h x (by simp [hx])]

/-- `dropWhile` skips a block that satisfies the predicate. -/
theorem dropWhile_append_all {p : Char → Bool} (ds t : Str)
    (h : ∀ d ∈ ds, p d = true) :
    (ds ++ t).dropWhile p = t.dropWhile p := by
  induction ds with
  | nil => simp
  | cons d ds ih =>
    have hd : p d = true := h d (by simp)
    simp only [List.cons_append, List.dropWhile_cons, hd, if_pos]
    exact ih fun x hx => h x (by simp [hx])

/-- A prefix with exactly one extra character is an append of one
character. -/
theorem isPre_len_succ (base vUp : Str) :
    (isPre base vUp = true ∧ vUp.length = base.length + 1) ↔
      ∃ c, vUp = base ++ [c] := by
  rw [isPre_iff]
  constructor
  · rintro ⟨⟨r, rfl⟩, hlen⟩
    rw [List.length_append] at hlen
    have : r.length = 1 := by omega
    rcases List.length_eq_one.mp this with ⟨c, rfl⟩
    exact ⟨c, rfl⟩
  · rintro ⟨c, rfl⟩
    exact ⟨⟨[c], rfl⟩, by simp⟩

/-- The position-wildcard regex succeeds with digit group `ds` exactly on
single-letter substitution variants at that digit position. -/
theorem parsePosVariant_eq_some_iff (vUp ds : Str) :
    parsePosVariant vUp = some ds ↔
      (ds ≠ [] ∧ (∀ d ∈ ds, isDigitChar d = true) ∧
        ∃ (r a : Char),
          (vUp = r :: (ds ++ [a]) ∨ vUp = r :: (ds ++ [a, '\n'])) ∧
          isUpperAlpha r = true ∧ isUpperAlpha a = true) := by
  constructor
  · intro h
    cases vUp with
    | nil => simp [parsePosVariant] at h
    | cons c rest =>
      dsimp only [parsePosVariant] at h
      by_cases hc : isUpperAlpha c = true
      · rw [if_pos hc] at h
        rcases htw : rest.takeWhile isDigitChar with _ | ⟨d0, ds'⟩ <;> rw [htw] at h
        · simp at h
        · rcases hdw : rest.dropWhile isDigitChar with _ | ⟨a, tl⟩ <;> rw [hdw] at h
          · simp at h
          · rcases tl with _ | ⟨x, tl'⟩
            · dsimp only at h
              by_cases ha : isUpperAlpha a = true
              · rw [if_pos ha] at h
                have hds : d0 :: ds' = ds := by simpa using h
                have hsplit : rest.takeWhile isDigitChar ++
                    rest.dropWhile isDigitChar = rest :=
                  List.takeWhile_append_dropWhile isDigitChar rest
                rw [htw, hdw] at hsplit
                refine ⟨by rw [← hds]; simp, ?_, c, a, Or.inl ?_, hc, ha⟩
                · intro d hd
                  exact all_mem_takeWhile rest d (htw ▸ hds ▸ hd)
                · rw [← hds, ← hsplit]
              · rw [if_neg ha] at h
                cases h
            · rcases tl' with _ | ⟨y, tl2⟩
              · dsimp only at h
                by_cases hg : (isUpperAlpha a && (x = '\n')) = true
                · rw [if_pos hg] at h
                  simp only [Bool.and_eq_true, decide_eq_true_eq] at hg
                  obtain ⟨ha, hx⟩ := hg
                  have hds : d0 :: ds' = ds := by simpa using h
                  have hsplit : rest.takeWhile isDigitChar ++
                      rest.dropWhile isDigitChar = rest :=
                    List.takeWhile_append_dropWhile isDigitChar rest
                  rw [htw, hdw] at hsplit
                  refine ⟨by rw [← hds]; simp, ?_, c, a, Or.inr ?_, hc, ha⟩
                  · intro d hd
                    exact all_mem_takeWhile rest d (htw ▸ hds ▸ hd)
                  · rw [← hds, ← hsplit, hx]
                · rw [if_neg hg] at h
                  cases h
              · simp at h
      · rw [if_neg hc] at h
        cases h
  · rintro ⟨hne, hdig, r, a, hv | hv, hr, ha⟩
    · subst hv
      dsimp only [parsePosVariant]
      rw [if_pos hr]
      have h1 : (ds ++ [a]).takeWhile isDigitChar = ds := by
        rw [takeWhile_append_all ds [a] hdig]
        simp [List.takeWhile_cons, upper_not_digit a ha]
      have h2 : (ds ++ [a]).dropWhile isDigitChar = [a] := by
        rw [dropWhile_append_all ds [a] hdig]
        simp [List.dropWhile_cons, upper_not_digit a ha]
      rw [h1, h2]
      rcases ds with _ | ⟨d0, ds'⟩
      · exact absurd rfl hne
      · simp [ha]
    · subst hv
      dsimp only [parsePosVariant]
      rw [if_pos hr]
      have h1 : (ds ++ [a, '\n']).takeWhile isDigitChar = ds := by
        rw [takeWhile_append_all ds [a, '\n'] hdig]
        simp [List.takeWhile_cons, upper_not_digit a ha]
      have h2 : (ds ++ [a, '\n']).dropWhile isDigitChar = [a, '\n'] := by
        rw [dropWhile_append_all ds [a, '\n'] hdig]
        simp [List.dropWhile_cons, upper_not_digit a ha]
      rw [h1, h2]
      rcases ds with _ | ⟨d0, ds'⟩
      · exact absurd rfl hne
      · simp [ha]

/-- The dotted-shape test of the position wildcard in element syntax. -/
theorem dot_shape (part : Str) :
    (part.head? = some '.' ∧ part.getLast? = some '.' ∧ 2 < part.length) ↔
      ∃ ds, part = '.' :: (ds ++ ['.']) ∧ ds ≠ [] := by
  constructor
  · rintro ⟨hh, hl, hlen⟩
    cases part with
    | nil => cases hh
    | cons c t =>
      have hc : c = '.' := by simpa using hh
      subst hc
      have ht : t ≠ [] := by
        intro h
        subst h
        simp at hlen
      have hdec : t.dropLast ++ [t.getLast ht] = t := List.dropLast_append_getLast ht
      have hsplit : ('.' :: t) = ('.' :: t.dropLast) ++ [t.getLast ht] := by
        rw [List.cons_append, hdec]
      have hlast : t.getLast ht = '.' := by
        rw [hsplit, List.getLast?_concat] at hl
        simpa using hl
      refine ⟨t.dropLast, ?_, ?_⟩
      · conv_lhs => rw [hsplit]
        rw [hlast, List.cons_append]
      · intro hnil
        have hL := congrArg List.length hdec
        rw [hnil] at hL
        simp at hL
        simp only [List.length_cons] at hlen
        omega
  · rintro ⟨ds, rfl, hne⟩
    refine ⟨rfl, ?_, ?_⟩
    · show (('.' :: ds) ++ ['.']).getLast? = some '.'
      rw [List.getLast?_concat]
    · have hpos : 0 < ds.length := List.length_pos.mpr hne
      simp only [List.length_cons, List.length_append]
      omega

/-- The match on `parsePosVariant` inside `cgiElementMatches`. -/
theorem match_parsePos_iff (vUp inner : Str) :
    (match parsePosVariant vUp with
     | some ds => ds == inner
     | none => false) = true ↔ parsePosVariant vUp = some inner := by
  cases h : parsePosVariant vUp with
  | none => simp [h]
  | some a =>
    simp only [h, beq_iff_eq, Option.some.injEq]

/-- Each element rule of `_variant_matches` is exactly the corresponding
declarative DSL rule. -/
theorem cgiElementMatches_iff (part vUp : Str) :
    cgiElementMatches part vUp = true ↔ cgiElementSpec part vUp := by
  unfold cgiElementMatches cgiElementSpec
  simp only [Bool.or_eq_true, Bool.and_eq_true, beq_iff_eq, decide_eq_true_eq,
    Bool.not_eq_true', beq_eq_false_iff_ne, List.isEmpty_eq_false, ne_eq,
    List.all_eq_true, match_parsePos_iff]
  constructor
  · rintro (((h | h) | ⟨⟨⟨hl, hh⟩, hpre⟩, hlen⟩) | ⟨⟨⟨hh, hl⟩, hlen⟩, ⟨hie, hall⟩, hmatch⟩)
    · exact Or.inl h
    · exact Or.inr (Or.inl h)
    · refine Or.inr (Or.inr (Or.inl ⟨hl, hh, ?_⟩))
      exact (isPre_len_succ part.dropLast vUp).mp ⟨hpre, hlen⟩
    · refine Or.inr (Or.inr (Or.inr ?_))
      obtain ⟨ds, hshape, hdsne⟩ := (dot_shape part).mp ⟨hh, hl, hlen⟩
      have hinner2 : (part.drop 1).dropLast = ds := by
        rw [hshape]
        simp
      rw [hinner2] at hmatch
      obtain ⟨hne2, hdig2, r, a, hv, hr, ha⟩ :=
        (parsePosVariant_eq_some_iff vUp ds).mp hmatch
      exact ⟨ds, hshape, hdsne, hdig2, r, a, hv, hr, ha⟩
  · rintro (h | h | ⟨hl, hh, c, hv⟩ | ⟨ds, hshape, hdsne, hdig, r, a, hv, hr, ha⟩)
    · exact Or.inl (Or.inl (Or.inl h))
    · exact Or.inl (Or.inl (Or.inr h))
    · have hp := (isPre_len_succ part.dropLast vUp).mpr ⟨c, hv⟩
      exact Or.inl (Or.inr ⟨⟨⟨hl, hh⟩, hp.1⟩, hp.2⟩)
    · have hd := (dot_shape part).mpr ⟨ds, hshape, hdsne⟩
      have hinner2 : (part.drop 1).dropLast = ds := by
        rw [hshape]
        simp
      refine Or.inr ⟨⟨⟨hd.1, hd.2.1⟩, hd.2.2⟩, ?_⟩
      rw [hinner2]
      exact ⟨⟨fun hcon => hdsne hcon, hdig⟩,
        (parsePosVariant_eq_some_iff vUp ds).mpr ⟨hdsne, hdig, r, a, hv, hr, ha⟩⟩

/-- One part of the matcher loop body, related to the declarative rule. -/
theorem cgi_part_iff (part0 vUp : Str) :
    ((if (up (pyStrip part0)).isEmpty then false
      else cgiElementMatches (cgiPartNormalize (up (pyStrip part0))) vUp) = true) ↔
      (up (pyStrip part0) ≠ [] ∧
        cgiElementSpec (cgiPartNormalize (up (pyStrip part0))) vUp) := by
  by_cases h : (up (pyStrip part0)).isEmpty
  · simp [h, List.isEmpty_iff.mp h]
  · have hne : up (pyStrip part0) ≠ [] := by
      simpa [List.isEmpty_iff] using h
    simp [h, cgiElementMatches_iff, hne]

/-- C8 counterexample: the code removes every `P.` occurrence from the
upper-cased variant rather than stripping a leading `p.` prefix, so
`ap.b` matches the element `AB` although the claim's DSL reading does
not match it. -/
theorem cgi_pattern_claim_counterexample :
    cgiVariantMatches (lit "EGFR:AB") (lit "EGFR") (lit "ap.b") = true ∧
      claimC8VariantMatches (lit "EGFR:AB") (lit "EGFR") (lit "ap.b") = false := by
  decide

/-- C8 (amended): `_variant_matches` implements the pattern DSL with the
query variant upper-cased and every `P.` occurrence removed: the matcher
accepts exactly when the alteration is non-empty and some comma element,
after stripping/upper-casing/taking the last colon segment, is non-empty
and satisfies one of the four declarative rules (exact equality, lone
dot, trailing-dot codon wildcard with exactly one extra character, or
`.N.` single-letter substitution at position `N`, the substituted letter
optionally followed by one trailing newline as the regex end anchor
allows). -/
theorem cgi_pattern_characterization (alt gene variant : Str) :
    cgiVariantMatches alt gene variant = true ↔
      (alt ≠ [] ∧
        ∃ part0 ∈ splitOnChar ',' (removeAll (up gene ++ lit ":") alt),
          up (pyStrip part0) ≠ [] ∧
            cgiElementSpec (cgiPartNormalize (up (pyStrip part0)))
              (removeAll (lit "P.") (up variant))) := by
  unfold cgiVariantMatches
  by_cases ha : alt.isEmpty
  · simp [ha, List.isEmpty_iff.mp ha]
  · have hne : alt ≠ [] := by simpa [List.isEmpty_iff] using ha
    rw [if_neg (by simpa using ha)]
    simp only [List.any_eq_true]
    constructor
    · rintro ⟨part0, hmem, hbody⟩
      exact ⟨hne, part0, hmem, (cgi_part_iff part0 _).mp hbody⟩
    · rintro ⟨-, part0, hmem, hspec⟩
      exact ⟨part0, hmem, (cgi_part_iff part0 _).mpr hspec⟩

/-! ## Character-class arithmetic for the normalization proofs -/

/-- `Char.ofNat` round-trips on the code points used here. -/
theorem toNat_ofNat_small (n : Nat) (h : n < 1000) : (Char.ofNat n).toNat = n := by
  have hv : n.isValidChar := Or.inl (by omega)
  rw [Char.ofNat, dif_pos hv]
  simp [Char.toNat, Char.ofNatAux]
  exact BitVec.toNat_ofNatLt _ _

/-- `Char.toNat` is injective. -/
theorem char_toNat_inj {c d : Char} (h : c.toNat = d.toNat) : c = d :=
  Char.ext (UInt32.ext h)

/-- The code point of `loChar`. -/
theorem loChar_toNat (c : Char) :
    (loChar c).toNat =
      if 65 ≤ c.toNat ∧ c.toNat ≤ 90 then c.toNat + 32 else c.toNat := by
  unfold loChar
  by_cases h : 65 ≤ c.toNat ∧ c.toNat ≤ 90
  · rw [if_pos h, if_pos h, toNat_ofNat_small _ (by omega)]
  · rw [if_neg h, if_neg h]

/-- The code point of `upChar`. -/
theorem upChar_toNat (c : Char) :
    (upChar c).toNat =
      if 97 ≤ c.toNat ∧ c.toNat ≤ 122 then c.toNat - 32 else c.toNat := by
  unfold upChar
  by_cases h : 97 ≤ c.toNat ∧ c.toNat ≤ 122
  · rw [if_pos h, if_pos h, toNat_ofNat_small _ (by omega)]
  · rw [if_neg h, if_neg h]

/-- Whitespace is not a letter. -/
theorem ws_not_alpha {c : Char} (h : isWsChar c = true) : isAsciiAlpha c = false := by
  simp only [isWsChar, decide_eq_true_eq] at h
  simp only [isAsciiAlpha, isUpperAlpha, isLowerAlpha, Bool.or_eq_false_iff,
    decide_eq_false_iff_not]
  omega

/-- Whitespace is not a letter-or-star. -/
theorem ws_not_letterStar {c : Char} (h : isWsChar c = true) :
    isLetterStar c = false := by
  simp only [isWsChar, decide_eq_true_eq] at h
  simp only [isLetterStar, isAsciiAlpha, isUpperAlpha, isLowerAlpha,
    Bool.or_eq_false_iff, decide_eq_false_iff_not]
  refine ⟨⟨by omega, by omega⟩, ?_⟩
  intro hcon
  rw [hcon] at h
  simp at h

/-- Whitespace is not a digit. -/
theorem ws_not_digit {c : Char} (h : isWsChar c = true) : isDigitChar c = false := by
  simp only [isWsChar, decide_eq_true_eq] at h
  simp only [isDigitChar, decide_eq_false_iff_not]
  omega

/-- A digit is not a letter. -/
theorem digit_not_alpha {c : Char} (h : isDigitChar c = true) :
    isAsciiAlpha c = false := by
  simp only [isDigitChar, decide_eq_true_eq] at h
  simp only [isAsciiAlpha, isUpperAlpha, isLowerAlpha, Bool.or_eq_false_iff,
    decide_eq_false_iff_not]
  omega

/-- A digit is not a letter-or-star. -/
theorem digit_not_letterStar {c : Char} (h : isDigitChar c = true) :
    isLetterStar c = false := by
  simp only [isDigitChar, decide_eq_true_eq] at h
  simp only [isLetterStar, isAsciiAlpha, isUpperAlpha, isLowerAlpha,
    Bool.or_eq_false_iff, decide_eq_false_iff_not]
  refine ⟨⟨by omega, by omega⟩, ?_⟩
  intro hcon
  rw [hcon] at h
  simp at h

/-- A digit is not whitespace. -/
theorem digit_not_ws {c : Char} (h : isDigitChar c = true) : isWsChar c = false := by
  simp only [isDigitChar, decide_eq_true_eq] at h
  simp only [isWsChar, decide_eq_false_iff_not]
  omega

/-- A letter-or-star is not a digit. -/
theorem letterStar_not_digit {c : Char} (h : isLetterStar c = true) :
    isDigitChar c = false := by
  simp only [isLetterStar, isAsciiAlpha, isUpperAlpha, isLowerAlpha,
    Bool.or_eq_true, decide_eq_true_eq] at h
  simp only [isDigitChar, decide_eq_false_iff_not]
  rcases h with (h | h) | h
  · omega
  · omega
  · rw [h]
    decide

/-- A letter-or-star is not whitespace. -/
theorem letterStar_not_ws {c : Char} (h : isLetterStar c = true) :
    isWsChar c = false := by
  simp only [isLetterStar, isAsciiAlpha, isUpperAlpha, isLowerAlpha,
    Bool.or_eq_true, decide_eq_true_eq] at h
  simp only [isWsChar, decide_eq_false_iff_not]
  rcases h with (h | h) | h
  · omega
  · omega
  · rw [h]
    decide

/-- `loChar` fixes whitespace. -/
theorem loChar_ws_fix {c : Char} (h : isWsChar c = true) : loChar c = c := by
  simp only [isWsChar, decide_eq_true_eq] at h
  unfold loChar
  rw [if_neg (by omega)]

/-- `loChar` fixes digits. -/
theorem loChar_digit_fix {c : Char} (h : isDigitChar c = true) : loChar c = c := by
  simp only [isDigitChar, decide_eq_true_eq] at h
  unfold loChar
  rw [if_neg (by omega)]

/-- `loChar` preserves whitespace-ness. -/
theorem isWsChar_loChar (c : Char) : isWsChar (loChar c) = isWsChar c := by
  simp only [isWsChar, loChar_toNat]
  by_cases h : 65 ≤ c.toNat ∧ c.toNat ≤ 90
  · rw [if_pos h]
    simp only [decide_eq_decide]
    omega
  · rw [if_neg h]

/-- A character is the star exactly when its code point is 42. -/
theorem char_eq_star_iff (c : Char) : (c = '*') ↔ c.toNat = 42 := by
  constructor
  · intro h
    rw [h]
    decide
  · intro h
    exact char_toNat_inj (h.trans (by decide))

/-- `loChar` preserves the letter-or-star class. -/
theorem isLetterStar_loChar (c : Char) : isLetterStar (loChar c) = isLetterStar c := by
  rw [Bool.eq_iff_iff]
  simp only [isLetterStar, isAsciiAlpha, isUpperAlpha, isLowerAlpha, Bool.or_eq_true,
    decide_eq_true_eq, char_eq_star_iff, loChar_toNat]
  split_ifs with hc <;> omega

/-- `upChar` preserves the letter-or-star class. -/
theorem isLetterStar_upChar (c : Char) : isLetterStar (upChar c) = isLetterStar c := by
  rw [Bool.eq_iff_iff]
  simp only [isLetterStar, isAsciiAlpha, isUpperAlpha, isLowerAlpha, Bool.or_eq_true,
    decide_eq_true_eq, char_eq_star_iff, upChar_toNat]
  split_ifs with hc <;> omega

/-- `upChar` is idempotent. -/
theorem upChar_idem (c : Char) : upChar (upChar c) = upChar c := by
  apply char_toNat_inj
  simp only [upChar_toNat]
  split_ifs <;> omega

/-- `upChar c` is a star exactly when `c` is. -/
theorem upChar_star_iff (c : Char) : (upChar c = '*') ↔ (c = '*') := by
  rw [char_eq_star_iff, char_eq_star_iff, upChar_toNat]
  split_ifs with hc <;> omega

/-- `loChar` after `upChar` is `loChar`. -/
theorem loChar_upChar (c : Char) : loChar (upChar c) = loChar c := by
  apply char_toNat_inj
  simp only [loChar_toNat, upChar_toNat]
  split_ifs <;> omega

/-! ## Substring scanning across separator characters -/

/-- A substring is no longer than its host. -/
theorem pyIn_length_le {k s : Str} (h : pyIn k s = true) : k.length ≤ s.length := by
  rw [pyIn_iff] at h
  obtain ⟨l, r, rfl⟩ := h
  simp only [List.length_append]
  omega

/-- A keyword of length at least two is not inside a singleton. -/
theorem pyIn_singleton_false {k : Str} (hk : 2 ≤ k.length) (c : Char) :
    pyIn k [c] = false := by
  cases h : pyIn k [c]
  · rfl
  · have := pyIn_length_le h
    simp at this
    omega

/-- Distinct `P`-status forces distinct characters. -/
theorem sep_ne {P : Char → Bool} {a c : Char} (ha : P a = false) (hc : P c = true) :
    a ≠ c := by
  intro hcon
  rw [hcon, hc] at ha
  cases ha

/-- `isPre` ignores a trailing block of separator characters when the
pattern avoids them entirely. -/
theorem isPre_append_allP {P : Char → Bool} {k : Str} (m w : Str)
    (hk : ∀ a ∈ k, P a = false) (hw : ∀ a ∈ w, P a = true) :
    isPre k (m ++ w) = isPre k m := by
  induction k generalizing m with
  | nil => rfl
  | cons a k' ih =>
    cases m with
    | nil =>
      cases w with
      | nil => rfl
      | cons c w' =>
        have hac : a ≠ c := sep_ne (hk a (by simp)) (hw c (by simp))
        simp [isPre, hac]
    | cons b m' =>
      simp only [List.cons_append, isPre, List.append_eq]
      rw [ih m' fun x hx => hk x (by simp [hx])]

/-- `isPre` cannot continue past a separator character. -/
theorem isPre_append_sepP {P : Char → Bool} {k : Str} {c : Char} (m r : Str)
    (hk : ∀ a ∈ k, P a = false) (hc : P c = true) :
    isPre k (m ++ c :: r) = isPre k m := by
  induction k generalizing m with
  | nil => rfl
  | cons a k' ih =>
    cases m with
    | nil =>
      have hac : a ≠ c := sep_ne (hk a (by simp)) hc
      simp [isPre, hac]
    | cons b m' =>
      simp only [List.cons_append, isPre, List.append_eq]
      rw [ih m' fun x hx => hk x (by simp [hx])]

/-- A separator-free keyword ignores a leading block of separators. -/
theorem pyIn_append_left_allP {P : Char → Bool} {k : Str} (w t : Str)
    (hk : ∀ a ∈ k, P a = false) (hw : ∀ a ∈ w, P a = true) :
    pyIn k (w ++ t) = pyIn k t := by
  induction w with
  | nil => rfl
  | cons c w' ih =>
    cases k with
    | nil =>
      cases t <;> simp [pyIn, isPre]
    | cons a k' =>
      have hac : a ≠ c := sep_ne (hk a (by simp)) (hw c (by simp))
      simp only [List.cons_append, pyIn, isPre, List.append_eq]
      rw [ih fun x hx => hw x (by simp [hx])]
      simp [hac]
  
/-- A separator-free keyword ignores a trailing block of separators. -/
theorem pyIn_append_right_allP {P : Char → Bool} {k : Str} (t w : Str)
    (hk : ∀ a ∈ k, P a = false) (hw : ∀ a ∈ w, P a = true) :
    pyIn k (t ++ w) = pyIn k t := by
  induction t with
  | nil =>
    have h := pyIn_append_left_allP (t := ([] : Str)) w hk hw
    rw [List.append_nil] at h
    exact h
  | cons c t' ih =>
    simp only [List.cons_append, pyIn]
    rw [show t' ++ w = t'.append w from rfl] at ih
    rw [ih]
    have h2 : isPre k (c :: (t' ++ w)) = isPre k (c :: t') := by
      have h3 := isPre_append_allP (P := P) (c :: t') w hk hw
      rw [List.cons_append] at h3
      exact h3
    rw [show c :: (t'.append w) = c :: (t' ++ w) from rfl, h2]

/-- A separator splits the substring search into the two sides. -/
theorem pyIn_append_sepP {P : Char → Bool} {k : Str} {c : Char} (l r : Str)
    (hk : ∀ a ∈ k, P a = false) (hc : P c = true) :
    pyIn k (l ++ c :: r) = (pyIn k l || pyIn k r) := by
  induction l with
  | nil =>
    cases k with
    | nil => simp [pyIn, isPre]
    | cons a k' =>
      have hac : a ≠ c := sep_ne (hk a (by simp)) hc
      simp [pyIn, isPre, hac]
  | cons b l' ih =>
    simp only [List.cons_append, pyIn]
    rw [show l' ++ c :: r = l'.append (c :: r) from rfl] at ih
    rw [ih]
    have h2 : isPre k (b :: (l' ++ c :: r)) = isPre k (b :: l') := by
      have h3 := isPre_append_sepP (P := P) (b :: l') r hk hc
      rw [List.cons_append] at h3
      exact h3
    rw [show b :: (l'.append (c :: r)) = b :: (l' ++ c :: r) from rfl, h2]
    simp [pyIn, Bool.or_assoc]

/-! ## Properties of `pyStrip` -/

/-- `dropWhile` never lengthens a list. -/
theorem length_dropWhile_le (p : Char → Bool) (l : Str) :
    (l.dropWhile p).length ≤ l.length := by
  induction l with
  | nil => simp
  | cons c t ih =>
    rw [List.dropWhile_cons]
    by_cases hc : p c
    · rw [if_pos hc]
      simp
      omega
    · rw [if_neg hc]

/-- `dropWhile` is idempotent. -/
theorem dropWhile_idem (p : Char → Bool) (l : Str) :
    (l.dropWhile p).dropWhile p = l.dropWhile p := by
  induction l with
  | nil => rfl
  | cons c t ih =>
    by_cases hc : p c
    · rw [List.dropWhile_cons, if_pos hc]
      exact ih
    · rw [List.dropWhile_cons, if_neg hc, List.dropWhile_cons, if_neg hc]

/-- A `dropWhile` fixed point stays fixed on its prefixes. -/
theorem dropWhile_eq_self_of_prefix (p : Char → Bool) (m w : Str)
    (h : (m ++ w).dropWhile p = m ++ w) : m.dropWhile p = m := by
  cases m with
  | nil => rfl
  | cons c m' =>
    rw [List.cons_append, List.dropWhile_cons] at h
    by_cases hc : p c
    · rw [if_pos hc] at h
      exfalso
      have hle := length_dropWhile_le p (m' ++ w)
      rw [h] at hle
      simp at hle
    · rw [List.dropWhile_cons, if_neg hc]

/-- `dropEndWs` is idempotent. -/
theorem dropEndWs_idem (s : Str) : dropEndWs (dropEndWs s) = dropEndWs s := by
  unfold dropEndWs
  rw [List.reverse_reverse, dropWhile_idem]

/-- Every string splits as whitespace, its strip, and whitespace. -/
theorem pyStrip_decomposition (s : Str) :
    ∃ w1 w2, s = w1 ++ pyStrip s ++ w2 ∧ (∀ c ∈ w1, isWsChar c = true) ∧
      (∀ c ∈ w2, isWsChar c = true) := by
  refine ⟨s.takeWhile isWsChar,
    ((s.dropWhile isWsChar).reverse.takeWhile isWsChar).reverse, ?_,
    fun c hc => all_mem_takeWhile s c hc, fun c hc => ?_⟩
  · unfold pyStrip dropEndWs dropStartWs
    conv_lhs => rw [← List.takeWhile_append_dropWhile (p := isWsChar) (l := s)]
    rw [List.append_assoc]
    congr 1
    rw [← List.reverse_append, List.takeWhile_append_dropWhile, List.reverse_reverse]
  · exact all_mem_takeWhile _ c (List.mem_reverse.mp hc)

/-- `pyStrip` is idempotent. -/
theorem pyStrip_idem (s : Str) : pyStrip (pyStrip s) = pyStrip s := by
  unfold pyStrip
  have h1 : dropStartWs (dropEndWs (dropStartWs s)) = dropEndWs (dropStartWs s) := by
    have hfix : dropStartWs (dropStartWs s) = dropStartWs s := by
      unfold dropStartWs
      exact dropWhile_idem isWsChar s
    have hsplit : dropStartWs s =
        dropEndWs (dropStartWs s) ++
          ((dropStartWs s).reverse.takeWhile isWsChar).reverse := by
      unfold dropEndWs
      rw [← List.reverse_append, List.takeWhile_append_dropWhile, List.reverse_reverse]
    rw [hsplit] at hfix
    exact dropWhile_eq_self_of_prefix isWsChar _ _ hfix
  rw [h1, dropEndWs_idem]

/-- `pyStrip` fixes whitespace-free strings. -/
theorem pyStrip_eq_self (s : Str) (h : ∀ c ∈ s, isWsChar c = false) :
    pyStrip s = s := by
  have h1 : dropStartWs s = s := by
    cases s with
    | nil => rfl
    | cons c t =>
      unfold dropStartWs
      rw [List.dropWhile_cons, if_neg (by rw [h c (by simp)]; simp)]
  unfold pyStrip
  rw [h1]
  unfold dropEndWs
  cases hs : s.reverse with
  | nil =>
    have hnil : s = [] := by simpa using congrArg List.reverse hs
    rw [hnil]
    rfl
  | cons c t =>
    have hc : c ∈ s := by
      rw [← List.mem_reverse, hs]
      simp
    rw [List.dropWhile_cons, if_neg (by rw [h c hc]; simp), ← hs,
      List.reverse_reverse]

/-! ## Normalizer plumbing: `normalizeProteinChange` through `pCore` -/

/-- `normalize_protein_change` is its post-strip body applied to the
stripped and prefix-stripped input. -/
theorem normalizeProteinChange_eq_core (x : Str) :
    normalizeProteinChange x = npcCore (pCore x) := rfl

/-- `pCore` only sees the stripped string, so stripping first changes
nothing. -/
theorem pCore_strip (x : Str) : pCore (pyStrip x) = pCore x := by
  unfold pCore
  rw [pyStrip_idem]

/-- `normalize_protein_change` ignores outer whitespace. -/
theorem normalizeProteinChange_strip (x : Str) :
    normalizeProteinChange (pyStrip x) = normalizeProteinChange x := by
  rw [normalizeProteinChange_eq_core, normalizeProteinChange_eq_core, pCore_strip]

/-! ## The canonical amino-acid character class -/

/-- Canonical amino-acid characters are letters-or-star. -/
theorem canonAA_letterStar {c : Char} (h : isCanonAA c = true) :
    isLetterStar c = true := by
  simp only [isCanonAA, Bool.or_eq_true] at h
  simp only [isLetterStar, isAsciiAlpha, Bool.or_eq_true]
  rcases h with h | h
  · exact Or.inl (Or.inl h)
  · exact Or.inr h

/-- Canonical amino-acid characters are not whitespace. -/
theorem canonAA_not_ws {c : Char} (h : isCanonAA c = true) : isWsChar c = false :=
  letterStar_not_ws (canonAA_letterStar h)

/-- Canonical amino-acid characters are not digits. -/
theorem canonAA_not_digit {c : Char} (h : isCanonAA c = true) :
    isDigitChar c = false :=
  letterStar_not_digit (canonAA_letterStar h)

/-- Upper-casing a letter-or-star lands in the canonical class. -/
theorem upChar_canonAA {c : Char} (h : isLetterStar c = true) :
    isCanonAA (upChar c) = true := by
  simp only [isLetterStar, isAsciiAlpha, isUpperAlpha, isLowerAlpha, Bool.or_eq_true,
    decide_eq_true_eq, char_eq_star_iff] at h
  simp only [isCanonAA, isUpperAlpha, Bool.or_eq_true, decide_eq_true_eq,
    char_eq_star_iff, upChar_toNat]
  split_ifs <;> omega

/-- `upChar` fixes canonical amino-acid characters. -/
theorem upChar_fix_canonAA {c : Char} (h : isCanonAA c = true) : upChar c = c := by
  simp only [isCanonAA, isUpperAlpha, Bool.or_eq_true, decide_eq_true_eq,
    char_eq_star_iff] at h
  apply char_toNat_inj
  rw [upChar_toNat]
  split_ifs with hif
  · omega
  · rfl

/-! ## Lowering lists of characters -/

/-- `lo` distributes over append. -/
theorem lo_append (a b : Str) : lo (a ++ b) = lo a ++ lo b := by
  simp [lo]

/-- `lo` fixes an all-digit block. -/
theorem lo_fix_digits (ds : Str) (h : ∀ d ∈ ds, isDigitChar d = true) :
    lo ds = ds := by
  induction ds with
  | nil => rfl
  | cons d t ih =>
    simp only [lo, List.map_cons] at ih ⊢
    rw [loChar_digit_fix (h d (by simp)), ih fun x hx => h x (by simp [hx])]

/-- Lowering after upper-casing is just lowering. -/
theorem lo_up_eq (s : Str) : lo (up s) = lo s := by
  simp only [lo, up, List.map_map]
  exact List.map_congr_left fun a _ => loChar_upChar a

/-- Lowering keeps every character of a whitespace block whitespace. -/
theorem lo_ws_block (w : Str) (hw : ∀ c ∈ w, isWsChar c = true) :
    ∀ c ∈ lo w, isWsChar c = true := by
  intro c hc
  obtain ⟨d, hd, rfl⟩ := List.mem_map.mp hc
  rw [isWsChar_loChar]
  exact hw d hd

/-- Only the dot lowers to a dot. -/
theorem loChar_dot {c : Char} (h : loChar c = '.') : c = '.' := by
  have h2 := congrArg Char.toNat h
  rw [loChar_toNat] at h2
  apply char_toNat_inj
  have hdot : ('.' : Char).toNat = 46 := by decide
  rw [hdot] at h2 ⊢
  split_ifs at h2 with hif
  · omega
  · exact h2

/-! ## Locating the nonsense regex match -/

/-- `starTail` skips over a leading digit block. -/
theorem starTail_peel_digits (ds t : Str) (hds : ∀ d ∈ ds, isDigitChar d = true) :
    starTail (ds ++ t) = starTail t := by
  induction ds with
  | nil => rfl
  | cons d ds ih =>
    have hd : isDigitChar d = true := hds d (by simp)
    have hne : ¬ (d = '*') := by
      intro hcon
      rw [hcon] at hd
      exact absurd hd (by decide)
    simp only [List.cons_append, starTail]
    rw [if_neg hne, if_pos hd]
    exact ih fun x hx => hds x (by simp [hx])

/-- `starTail` is false on pure whitespace. -/
theorem starTail_false_of_ws (w : Str) (hw : ∀ c ∈ w, isWsChar c = true) :
    starTail w = false := by
  cases w with
  | nil => rfl
  | cons c t =>
    have hc := hw c (by simp)
    have hstar : ¬ (c = '*') := by
      intro hcon
      rw [hcon] at hc
      exact absurd hc (by decide)
    simp only [starTail]
    rw [if_neg hstar, if_neg (by simp [ws_not_digit hc])]

/-- `starTail` cannot finish inside a trailing whitespace block. -/
theorem starTail_ws_right (t w : Str) (hw : ∀ c ∈ w, isWsChar c = true) :
    starTail (t ++ w) = starTail t := by
  induction t with
  | nil => simpa using starTail_false_of_ws w hw
  | cons c t ih => simp only [List.cons_append, starTail, List.append_eq, ih]

/-- `digitsThenStar` is false on pure whitespace. -/
theorem digitsThenStar_false_of_ws (w : Str) (hw : ∀ c ∈ w, isWsChar c = true) :
    digitsThenStar w = false := by
  cases w with
  | nil => rfl
  | cons c t => simp [digitsThenStar, ws_not_digit (hw c (by simp))]

/-- `digitsThenStar` ignores a trailing whitespace block. -/
theorem digitsThenStar_ws_right (t w : Str) (hw : ∀ c ∈ w, isWsChar c = true) :
    digitsThenStar (t ++ w) = digitsThenStar t := by
  cases t with
  | nil => simpa using digitsThenStar_false_of_ws w hw
  | cons c t => simp only [List.cons_append, digitsThenStar, starTail_ws_right t w hw]

/-- The nonsense search fails on pure whitespace. -/
theorem nonsenseSearch_false_of_ws (w : Str) (hw : ∀ c ∈ w, isWsChar c = true) :
    nonsenseSearch w = false := by
  induction w with
  | nil => rfl
  | cons c t ih =>
    simp only [nonsenseSearch, ws_not_letterStar (hw c (by simp)), Bool.false_and,
      Bool.false_or]
    exact ih fun x hx => hw x (by simp [hx])

/-- The nonsense search skips a leading whitespace block. -/
theorem nonsenseSearch_ws_left (w t : Str) (hw : ∀ c ∈ w, isWsChar c = true) :
    nonsenseSearch (w ++ t) = nonsenseSearch t := by
  induction w with
  | nil => rfl
  | cons c w ih =>
    simp only [List.cons_append, nonsenseSearch, ws_not_letterStar (hw c (by simp)),
      Bool.false_and, Bool.false_or]
    exact ih fun x hx => hw x (by simp [hx])

/-- The nonsense search ignores a trailing whitespace block. -/
theorem nonsenseSearch_ws_right (t w : Str) (hw : ∀ c ∈ w, isWsChar c = true) :
    nonsenseSearch (t ++ w) = nonsenseSearch t := by
  induction t with
  | nil => simpa using nonsenseSearch_false_of_ws w hw
  | cons c t ih =>
    simp only [List.cons_append, nonsenseSearch, List.append_eq,
      digitsThenStar_ws_right t w hw, ih]

/-- The nonsense search skips a `p.`-style two-character prefix. -/
theorem nonsenseSearch_pdot (c : Char) (t : Str) :
    nonsenseSearch (c :: '.' :: t) = nonsenseSearch t := by
  have h1 : isDigitChar '.' = false := by decide
  have h2 : isLetterStar '.' = false := by decide
  simp [nonsenseSearch, digitsThenStar, h1, h2]

/-- The nonsense search skips a leading digit block. -/
theorem nonsenseSearch_peel_digits (ds t : Str)
    (hds : ∀ d ∈ ds, isDigitChar d = true) :
    nonsenseSearch (ds ++ t) = nonsenseSearch t := by
  induction ds with
  | nil => rfl
  | cons d ds ih =>
    simp only [List.cons_append, nonsenseSearch,
      digit_not_letterStar (hds d (by simp)), Bool.false_and, Bool.false_or]
    exact ih fun x hx => hds x (by simp [hx])

/-- On a canonical `X{digits}Y` core the nonsense regex fires exactly
when the alternate character is the star. -/
theorem nonsenseSearch_core (r a : Char) (ds : Str) (hr : isLetterStar r = true)
    (hne : ds ≠ []) (hds : ∀ d ∈ ds, isDigitChar d = true) :
    nonsenseSearch (r :: (ds ++ [a])) = decide (a = '*') := by
  have hsa : starTail [a] = decide (a = '*') := by
    simp only [starTail]
    by_cases ha : a = '*'
    · rw [if_pos ha, decide_eq_true ha]
    · rw [if_neg ha, decide_eq_false ha]
      split_ifs <;> rfl
  have htail : nonsenseSearch (ds ++ [a]) = false := by
    rw [nonsenseSearch_peel_digits ds [a] hds]
    simp [nonsenseSearch, digitsThenStar]
  rcases ds with _ | ⟨d, ds'⟩
  · exact absurd rfl hne
  · have hd : isDigitChar d = true := hds d (by simp)
    have hds' : ∀ x ∈ ds', isDigitChar x = true := fun x hx => hds x (by simp [hx])
    rw [show nonsenseSearch (r :: ((d :: ds') ++ [a])) =
      ((isLetterStar r && digitsThenStar ((d :: ds') ++ [a])) ||
        nonsenseSearch ((d :: ds') ++ [a])) from rfl]
    rw [htail, Bool.or_false, hr, Bool.true_and]
    rw [show (d :: ds') ++ [a] = d :: (ds' ++ [a]) from rfl]
    rw [show digitsThenStar (d :: (ds' ++ [a])) =
      (isDigitChar d && starTail (ds' ++ [a])) from rfl]
    rw [hd, Bool.true_and, starTail_peel_digits ds' [a] hds', hsa]

/-- A successful `starTail` run contains a star. -/
theorem star_mem_of_starTail {s : Str} (h : starTail s = true) : '*' ∈ s := by
  induction s with
  | nil => cases h
  | cons c t ih =>
    simp only [starTail] at h
    by_cases hc : c = '*'
    · rw [hc]
      simp
    · rw [if_neg hc] at h
      split_ifs at h with hd
      exact List.mem_cons_of_mem c (ih h)

/-- A successful `digitsThenStar` run contains a star. -/
theorem star_mem_of_digitsThenStar {s : Str} (h : digitsThenStar s = true) :
    '*' ∈ s := by
  cases s with
  | nil => cases h
  | cons c t =>
    simp only [digitsThenStar, Bool.and_eq_true] at h
    exact List.mem_cons_of_mem c (star_mem_of_starTail h.2)

/-- A successful nonsense search means the string contains a star. -/
theorem star_mem_of_nonsenseSearch {s : Str} (h : nonsenseSearch s = true) :
    '*' ∈ s := by
  induction s with
  | nil => cases h
  | cons c t ih =>
    simp only [nonsenseSearch, Bool.or_eq_true, Bool.and_eq_true] at h
    rcases h with ⟨_, h2⟩ | h
    · exact List.mem_cons_of_mem c (star_mem_of_digitsThenStar h2)
    · exact List.mem_cons_of_mem c (ih h)

/-! ## Keyword absence from canonical shapes -/

/-- A whitespace-free keyword search ignores surrounding whitespace. -/
theorem pyIn_strip_ws {kw : Str} (hk : ∀ c ∈ kw, isWsChar c = false)
    (w1 t w2 : Str) (hw1 : ∀ c ∈ w1, isWsChar c = true)
    (hw2 : ∀ c ∈ w2, isWsChar c = true) :
    pyIn kw (w1 ++ (t ++ w2)) = pyIn kw t := by
  rw [pyIn_append_left_allP (P := isWsChar) w1 (t ++ w2) hk hw1,
    pyIn_append_right_allP (P := isWsChar) t w2 hk hw2]

/-- An alphabetic keyword of length at least two ignores a two-character
letter-dot prefix. -/
theorem pyIn_pdot {kw : Str} (hlen : 2 ≤ kw.length)
    (hk : ∀ c ∈ kw, isAsciiAlpha c = true) (c : Char) (t : Str) :
    pyIn kw (c :: '.' :: t) = pyIn kw t := by
  have hdot : (fun b => !(isAsciiAlpha b)) '.' = true := by decide
  have hP : ∀ a ∈ kw, (fun b => !(isAsciiAlpha b)) a = false := fun a ha => by
    simp [hk a ha]
  have h := pyIn_append_sepP (P := fun b => !(isAsciiAlpha b)) [c] t hP hdot
  rw [List.singleton_append] at h
  rw [h, pyIn_singleton_false hlen c, Bool.false_or]

/-- An alphabetic keyword of length at least two cannot occur in two
keyword-free blocks separated by a nonempty digit run. -/
theorem pyIn_two_blocks_false {kw : Str}
    (hk : ∀ c ∈ kw, isAsciiAlpha c = true) (b1 b2 ds : Str)
    (hne : ds ≠ []) (hds : ∀ d ∈ ds, isDigitChar d = true)
    (h1 : pyIn kw b1 = false) (h2 : pyIn kw b2 = false) :
    pyIn kw (b1 ++ (ds ++ b2)) = false := by
  rcases ds with _ | ⟨d, ds'⟩
  · exact absurd rfl hne
  · have hP : ∀ a ∈ kw, (fun b => !(isAsciiAlpha b)) a = false := fun a ha => by
      simp [hk a ha]
    have hd : (fun b => !(isAsciiAlpha b)) d = true := by
      simp [digit_not_alpha (hds d (by simp))]
    rw [show b1 ++ ((d :: ds') ++ b2) = b1 ++ d :: (ds' ++ b2) from by simp]
    rw [pyIn_append_sepP (P := fun b => !(isAsciiAlpha b)) b1 (ds' ++ b2) hP hd]
    rw [h1, pyIn_append_left_allP (P := fun b => !(isAsciiAlpha b)) ds' b2 hP
      (fun x hx => by simp [digit_not_alpha (hds x (by simp [hx]))]), h2]
    rfl

/-- A letter is not whitespace. -/
theorem alpha_not_ws {c : Char} (h : isAsciiAlpha c = true) : isWsChar c = false := by
  cases hws : isWsChar c
  · rfl
  · rw [ws_not_alpha hws] at h
    cases h

/-! ## Inverting the anchored missense regex matchers -/

/-- `MISSENSE_PATTERN` succeeds with groups `(r, ds, a)` exactly on the
canonical `X{digits}Y` shape. -/
theorem parseMissense1_eq_some_iff (v : Str) (r a : Char) (ds : Str) :
    parseMissense1 v = some (r, ds, a) ↔
      (isLetterStar r = true ∧ ds ≠ [] ∧ (∀ d ∈ ds, isDigitChar d = true) ∧
        isLetterStar a = true ∧ v = r :: (ds ++ [a])) := by
  constructor
  · intro h
    cases v with
    | nil => simp [parseMissense1] at h
    | cons c rest =>
      dsimp only [parseMissense1] at h
      by_cases hc : isLetterStar c = true
      · rw [if_pos hc] at h
        rcases htw : rest.takeWhile isDigitChar with _ | ⟨d0, ds'⟩ <;> rw [htw] at h
        · simp at h
        · rcases hdw : rest.dropWhile isDigitChar with _ | ⟨a0, tl⟩ <;> rw [hdw] at h
          · simp at h
          · rcases tl with _ | ⟨x, tl'⟩
            · dsimp only at h
              by_cases ha : isLetterStar a0 = true
              · rw [if_pos ha] at h
                have hinj : c = r ∧ d0 :: ds' = ds ∧ a0 = a := by simpa using h
                obtain ⟨rfl, hds2, rfl⟩ := hinj
                have hsplit : rest.takeWhile isDigitChar ++
                    rest.dropWhile isDigitChar = rest :=
                  List.takeWhile_append_dropWhile isDigitChar rest
                rw [htw, hdw] at hsplit
                refine ⟨hc, by rw [← hds2]; simp, ?_, ha, ?_⟩
                · intro d hd
                  exact all_mem_takeWhile rest d (htw ▸ hds2 ▸ hd)
                · rw [← hds2, ← hsplit]
              · rw [if_neg ha] at h
                cases h
            · simp at h
      · rw [if_neg hc] at h
        cases h
  · rintro ⟨hr, hne, hds, ha, rfl⟩
    dsimp only [parseMissense1]
    rw [if_pos hr]
    have h1 : (ds ++ [a]).takeWhile isDigitChar = ds := by
      rw [takeWhile_append_all ds [a] hds]
      simp [List.takeWhile_cons, letterStar_not_digit ha]
    have h2 : (ds ++ [a]).dropWhile isDigitChar = [a] := by
      rw [dropWhile_append_all ds [a] hds]
      simp [List.dropWhile_cons, letterStar_not_digit ha]
    rw [h1, h2]
    rcases ds with _ | ⟨d0, ds'⟩
    · exact absurd rfl hne
    · simp [ha]

/-- A successful `MISSENSE_3LETTER_PATTERN` match decomposes the string
into two alphabetic triples around a nonempty digit run. -/
theorem parseMissense3_shape (v : Str) (t1 ds t2 : Str)
    (h : parseMissense3 v = some (t1, ds, t2)) :
    v = t1 ++ (ds ++ t2) ∧ (∀ c ∈ t1, isAsciiAlpha c = true) ∧
      (∀ c ∈ t2, isAsciiAlpha c = true) ∧ ds ≠ [] ∧
      (∀ d ∈ ds, isDigitChar d = true) := by
  cases v with
  | nil => simp [parseMissense3] at h
  | cons c1 v1 =>
    cases v1 with
    | nil => simp [parseMissense3] at h
    | cons c2 v2 =>
      cases v2 with
      | nil => simp [parseMissense3] at h
      | cons c3 rest =>
        dsimp only [parseMissense3] at h
        by_cases hx : (isAsciiAlpha c1 && isAsciiAlpha c2 && isAsciiAlpha c3) = true
        · rw [if_pos hx] at h
          rcases htw : rest.takeWhile isDigitChar with _ | ⟨d0, ds'⟩ <;> rw [htw] at h
          · simp at h
          · rcases hdw : rest.dropWhile isDigitChar with _ | ⟨e1, tl⟩ <;> rw [hdw] at h
            · simp at h
            · rcases tl with _ | ⟨e2, tl2⟩
              · simp at h
              · rcases tl2 with _ | ⟨e3, tl3⟩
                · simp at h
                · rcases tl3 with _ | ⟨e4, tl4⟩
                  · dsimp only at h
                    by_cases hy : (isAsciiAlpha e1 && isAsciiAlpha e2 &&
                        isAsciiAlpha e3) = true
                    · rw [if_pos hy] at h
                      have hinj : [c1, c2, c3] = t1 ∧ d0 :: ds' = ds ∧
                          [e1, e2, e3] = t2 := by simpa using h
                      obtain ⟨ht1, hds2, ht2⟩ := hinj
                      have hsplit : rest.takeWhile isDigitChar ++
                          rest.dropWhile isDigitChar = rest :=
                        List.takeWhile_append_dropWhile isDigitChar rest
                      rw [htw, hdw] at hsplit
                      simp only [Bool.and_eq_true] at hx hy
                      refine ⟨?_, ?_, ?_, ?_, ?_⟩
                      · rw [← ht1, ← hds2, ← ht2, ← hsplit]
                        simp
                      · rw [← ht1]
                        intro c hc
                        simp only [List.mem_cons, List.not_mem_nil, or_false] at hc
                        rcases hc with rfl | rfl | rfl
                        · exact hx.1.1
                        · exact hx.1.2
                        · exact hx.2
                      · rw [← ht2]
                        intro c hc
                        simp only [List.mem_cons, List.not_mem_nil, or_false] at hc
                        rcases hc with rfl | rfl | rfl
                        · exact hy.1.1
                        · exact hy.1.2
                        · exact hy.2
                      · rw [← hds2]
                        simp
                      · intro d hd
                        exact all_mem_takeWhile rest d (htw ▸ hds2 ▸ hd)
                    · rw [if_neg hy] at h
                      cases h
                  · simp at h
        · rw [if_neg hx] at h
          cases h

/-! ## Computing `npcCore` on each branch -/

/-- When the one-letter pattern matches, the produced short form and
missense flag. -/
theorem npcCore_parse1 (v : Str) (r a : Char) (ds : Str)
    (h : parseMissense1 v = some (r, ds, a)) :
    (npcCore v).short_form = some (upChar r :: (ds ++ [upChar a])) ∧
      (npcCore v).is_missense = (upChar a != '*') := by
  simp only [npcCore, h]
  exact ⟨trivial, trivial⟩

/-- When only the three-letter pattern matches and both lookups succeed,
the produced short form and missense flag. -/
theorem npcCore_parse3 (v : Str) (t1 ds t2 : Str) (rc ac : Char)
    (h1 : parseMissense1 v = none) (h3 : parseMissense3 v = some (t1, ds, t2))
    (hr : aminoAcid3to1.lookup (up t1) = some rc)
    (ha : aminoAcid3to1.lookup (up t2) = some ac) :
    (npcCore v).short_form = some (rc :: (ds ++ [ac])) ∧
      (npcCore v).is_missense = (ac != '*') := by
  simp only [npcCore, h1, h3, hr, ha]
  exact ⟨trivial, trivial⟩

/-- When neither pattern matches, the result is the empty dictionary. -/
theorem npcCore_none (v : Str) (h1 : parseMissense1 v = none)
    (h3 : parseMissense3 v = none) : npcCore v = emptyProteinChange := by
  simp only [npcCore, h1, h3]

/-- When the three-letter pattern matches but a lookup fails, the result
is the empty dictionary. -/
theorem npcCore_lookup_fail (v : Str) (t1 ds t2 : Str)
    (h1 : parseMissense1 v = none) (h3 : parseMissense3 v = some (t1, ds, t2))
    (hfail : aminoAcid3to1.lookup (up t1) = none ∨
      aminoAcid3to1.lookup (up t2) = none) :
    npcCore v = emptyProteinChange := by
  rcases hr : aminoAcid3to1.lookup (up t1) with _ | rc
  · simp only [npcCore, h1, h3, hr]
  · rcases ha : aminoAcid3to1.lookup (up t2) with _ | ac
    · simp only [npcCore, h1, h3, hr, ha]
    · rcases hfail with hf | hf
      · rw [hr] at hf
        cases hf
      · rw [ha] at hf
        cases hf

/-- A successful association-list lookup exhibits a member pair. -/
theorem mem_of_lookup_some {l : List (Str × Char)} {k : Str} {c : Char}
    (h : l.lookup k = some c) : (k, c) ∈ l := by
  induction l with
  | nil => cases h
  | cons p t ih =>
    obtain ⟨k0, c0⟩ := p
    rw [List.lookup_cons] at h
    split at h
    · rename_i heq
      have hkk : k = k0 := by simpa using heq
      have hcc : c0 = c := by simpa using h
      rw [hkk, hcc]
      exact List.mem_cons_self _ _
    · exact List.mem_cons_of_mem _ (ih h)

/-- Every value of the three-to-one amino-acid table is an upper-case
letter or the star. -/
theorem aminoAcid3to1_values_canon :
    ∀ p ∈ aminoAcid3to1, isCanonAA p.2 = true := by decide

/-- No classifier keyword occurs inside any lowered key of the
three-to-one amino-acid table. -/
theorem aminoAcid3to1_keys_no_keyword :
    ∀ p ∈ aminoAcid3to1, ∀ kw ∈ classifyKeywords, pyIn kw (lo p.1) = false := by
  decide

/-- Every classifier keyword is alphabetic with length at least two. -/
theorem classifyKeywords_alpha :
    ∀ kw ∈ classifyKeywords,
      2 ≤ kw.length ∧ ∀ c ∈ kw, isAsciiAlpha c = true := by decide

/-! ## Evaluating `classify_variant_type` -/

/-- With every substring keyword absent, `classify_variant_type` reduces
to the nonsense regex search followed by the missense check. -/
theorem classify_eval (v : Str)
    (hkw : ∀ kw ∈ classifyKeywords, pyIn kw (lo v) = false) :
    classifyVariantType v =
      if nonsenseSearch v = true then VariantType.nonsense
      else if (normalizeProteinChange v).is_missense = true then VariantType.missense
      else VariantType.unknown := by
  have h01 := hkw (lit "fusion") (by decide)
  have h02 := hkw (lit "fus") (by decide)
  have h03 := hkw (lit "rearrangement") (by decide)
  have h04 := hkw (lit "amp") (by decide)
  have h05 := hkw (lit "amplification") (by decide)
  have h06 := hkw (lit "overexpression") (by decide)
  have h07 := hkw (lit "truncat") (by decide)
  have h08 := hkw (lit "splice") (by decide)
  have h09 := hkw (lit "exon") (by decide)
  have h10 := hkw (lit "skip") (by decide)
  have h11 := hkw (lit "fs") (by decide)
  have h12 := hkw (lit "del") (by decide)
  have h13 := hkw (lit "ins") (by decide)
  have h14 := hkw (lit "dup") (by decide)
  simp only [classifyVariantType, fusionCheck, ampCheck, truncatCheck, spliceCheck,
    h01, h02, h03, h04, h05, h06, h07, h08, h09, h10, h11, h12, h13, h14,
    Bool.or_self, Bool.or_false, Bool.false_or, Bool.false_eq_true, if_false]

/-- `classify_variant_type` ignores outer whitespace. -/
theorem classify_strip (v : Str) :
    classifyVariantType (pyStrip v) = classifyVariantType v := by
  obtain ⟨w1, w2, hv, hw1, hw2⟩ := pyStrip_decomposition v
  have he : ∀ kw ∈ classifyKeywords, pyIn kw (lo (pyStrip v)) = pyIn kw (lo v) := by
    intro kw hm
    obtain ⟨hlen, halpha⟩ := classifyKeywords_alpha kw hm
    have hnws : ∀ c ∈ kw, isWsChar c = false := fun c hc => alpha_not_ws (halpha c hc)
    conv_rhs => rw [hv]
    rw [lo_append, lo_append]
    rw [pyIn_append_right_allP (P := isWsChar) _ _ hnws (lo_ws_block w2 hw2),
      pyIn_append_left_allP (P := isWsChar) _ _ hnws (lo_ws_block w1 hw1)]
  have hns : nonsenseSearch (pyStrip v) = nonsenseSearch v := by
    conv_rhs => rw [hv]
    rw [nonsenseSearch_ws_right _ w2 hw2, nonsenseSearch_ws_left w1 _ hw1]
  have e01 := he (lit "fusion") (by decide)
  have e02 := he (lit "fus") (by decide)
  have e03 := he (lit "rearrangement") (by decide)
  have e04 := he (lit "amp") (by decide)
  have e05 := he (lit "amplification") (by decide)
  have e06 := he (lit "overexpression") (by decide)
  have e07 := he (lit "truncat") (by decide)
  have e08 := he (lit "splice") (by decide)
  have e09 := he (lit "exon") (by decide)
  have e10 := he (lit "skip") (by decide)
  have e11 := he (lit "fs") (by decide)
  have e12 := he (lit "del") (by decide)
  have e13 := he (lit "ins") (by decide)
  have e14 := he (lit "dup") (by decide)
  simp only [classifyVariantType, fusionCheck, ampCheck, truncatCheck, spliceCheck,
    e01, e02, e03, e04, e05, e06, e07, e08, e09, e10, e11, e12, e13, e14,
    hns, normalizeProteinChange_strip]

/-! ## Decomposing a string around its parsed core -/

/-- Every string splits as whitespace, an optional `p.`-style prefix, the
`pCore`, and whitespace. -/
theorem pCore_decomposition (x : Str) :
    ∃ w1 w2 pfx, x = w1 ++ (pfx ++ pCore x) ++ w2 ∧
      (∀ c ∈ w1, isWsChar c = true) ∧ (∀ c ∈ w2, isWsChar c = true) ∧
      (pfx = [] ∨ ∃ q, pfx = [q, '.'] ∧ loChar q = 'p') := by
  obtain ⟨w1, w2, hx, hw1, hw2⟩ := pyStrip_decomposition x
  by_cases hp : isPre (lit "p.") (lo (pyStrip x)) = true
  · obtain ⟨t, ht⟩ := (isPre_iff _ _).mp hp
    have hlit : lit "p." = ['p', '.'] := by decide
    rcases hs : pyStrip x with _ | ⟨q, s1⟩
    · rw [hs] at ht
      simp [lo, hlit] at ht
    · rcases s1 with _ | ⟨q2, s2⟩
      · rw [hs] at ht
        simp [lo, hlit] at ht
      · rw [hs] at ht
        simp only [lo, List.map_cons, hlit, List.cons_append, List.nil_append,
          List.cons.injEq] at ht
        obtain ⟨hq, hq2lo, -⟩ := ht
        have hq2 : q2 = '.' := loChar_dot hq2lo
        have hcore : pCore x = s2 := by
          simp only [pCore]
          rw [if_pos hp, hs]
          rfl
        refine ⟨w1, w2, [q, q2], ?_, hw1, hw2, Or.inr ⟨q, by rw [hq2], hq⟩⟩
        rw [hcore]
        conv_lhs => rw [hx]
        rw [hs]
        rfl
  · have hcore : pCore x = pyStrip x := by
      simp only [pCore]
      rw [if_neg hp]
    refine ⟨w1, w2, [], ?_, hw1, hw2, Or.inl rfl⟩
    rw [hcore]
    conv_lhs => rw [hx]
    rfl

/-- Keyword absence on a whitespace-and-prefix-padded core reduces to
keyword absence on the core. -/
theorem keywords_absent_full (w1 w2 pfx core : Str)
    (hw1 : ∀ c ∈ w1, isWsChar c = true) (hw2 : ∀ c ∈ w2, isWsChar c = true)
    (hpfx : pfx = [] ∨ ∃ q, pfx = [q, '.'])
    (hcore : ∀ kw ∈ classifyKeywords, pyIn kw (lo core) = false) :
    ∀ kw ∈ classifyKeywords, pyIn kw (lo (w1 ++ (pfx ++ core) ++ w2)) = false := by
  intro kw hm
  obtain ⟨hlen, halpha⟩ := classifyKeywords_alpha kw hm
  have hnws : ∀ c ∈ kw, isWsChar c = false := fun c hc => alpha_not_ws (halpha c hc)
  rw [lo_append, lo_append]
  rw [pyIn_append_right_allP (P := isWsChar) _ _ hnws (lo_ws_block w2 hw2),
    pyIn_append_left_allP (P := isWsChar) _ _ hnws (lo_ws_block w1 hw1)]
  rcases hpfx with rfl | ⟨q, rfl⟩
  · rw [lo_append, show lo ([] : Str) = [] from rfl, List.nil_append]
    exact hcore kw hm
  · have hdot : loChar '.' = '.' := by decide
    rw [lo_append, show lo [q, '.'] = [loChar q, '.'] from by simp [lo, hdot]]
    rw [show [loChar q, '.'] ++ lo core = loChar q :: '.' :: lo core from rfl]
    rw [pyIn_pdot hlen halpha]
    exact hcore kw hm

/-- The nonsense search on a whitespace-and-prefix-padded core reduces to
the search on the core. -/
theorem nonsenseSearch_full (w1 w2 pfx core : Str)
    (hw1 : ∀ c ∈ w1, isWsChar c = true) (hw2 : ∀ c ∈ w2, isWsChar c = true)
    (hpfx : pfx = [] ∨ ∃ q, pfx = [q, '.']) :
    nonsenseSearch (w1 ++ (pfx ++ core) ++ w2) = nonsenseSearch core := by
  rw [nonsenseSearch_ws_right _ w2 hw2, nonsenseSearch_ws_left w1 _ hw1]
  rcases hpfx with rfl | ⟨q, rfl⟩
  · rw [List.nil_append]
  · rw [show [q, '.'] ++ core = q :: '.' :: core from rfl, nonsenseSearch_pdot]

/-! ## The second pass over a canonical short form -/

/-- A canonical short form contains no whitespace. -/
theorem canonical_no_ws (refc altc : Char) (ds : Str) (hr : isCanonAA refc = true)
    (ha : isCanonAA altc = true) (hds : ∀ d ∈ ds, isDigitChar d = true) :
    ∀ c ∈ refc :: (ds ++ [altc]), isWsChar c = false := by
  intro c hc
  simp only [List.mem_cons, List.mem_append, List.mem_singleton,
    List.not_mem_nil, or_false] at hc
  rcases hc with rfl | hc | rfl
  · exact canonAA_not_ws hr
  · exact digit_not_ws (hds c hc)
  · exact canonAA_not_ws ha

/-- Stripping leaves a canonical short form unchanged, and it carries no
`p.` prefix. -/
theorem pCore_canonical (refc altc : Char) (ds : Str) (hr : isCanonAA refc = true)
    (ha : isCanonAA altc = true) (hne : ds ≠ [])
    (hds : ∀ d ∈ ds, isDigitChar d = true) :
    pCore (refc :: (ds ++ [altc])) = refc :: (ds ++ [altc]) := by
  have hstrip : pyStrip (refc :: (ds ++ [altc])) = refc :: (ds ++ [altc]) :=
    pyStrip_eq_self _ (canonical_no_ws refc altc ds hr ha hds)
  have hpre : isPre (lit "p.") (lo (refc :: (ds ++ [altc]))) = false := by
    rcases ds with _ | ⟨d, ds'⟩
    · exact absurd rfl hne
    · have hd : isDigitChar d = true := hds d (by simp)
      have hdd : loChar d = d := loChar_digit_fix hd
      have hlit : lit "p." = ['p', '.'] := by decide
      rw [hlit]
      rw [show lo (refc :: ((d :: ds') ++ [altc])) =
        loChar refc :: loChar d :: lo (ds' ++ [altc]) from rfl]
      have hnd : ¬ (('.' : Char) = loChar d) := by
        rw [hdd]
        exact sep_ne (P := isDigitChar) (by decide) hd
      simp [isPre, hnd]
  simp only [pCore]
  rw [hstrip, if_neg (by simp [hpre])]

/-- The one-letter matcher recovers a canonical short form exactly. -/
theorem parse1_canonical (refc altc : Char) (ds : Str) (hr : isCanonAA refc = true)
    (ha : isCanonAA altc = true) (hne : ds ≠ [])
    (hds : ∀ d ∈ ds, isDigitChar d = true) :
    parseMissense1 (refc :: (ds ++ [altc])) = some (refc, ds, altc) :=
  (parseMissense1_eq_some_iff _ _ _ _).mpr
    ⟨canonAA_letterStar hr, hne, hds, canonAA_letterStar ha, rfl⟩

/-- Re-normalizing a canonical short form reproduces it. -/
theorem npc_canonical (refc altc : Char) (ds : Str) (hr : isCanonAA refc = true)
    (ha : isCanonAA altc = true) (hne : ds ≠ [])
    (hds : ∀ d ∈ ds, isDigitChar d = true) :
    (normalizeProteinChange (refc :: (ds ++ [altc]))).short_form =
        some (refc :: (ds ++ [altc])) ∧
      (normalizeProteinChange (refc :: (ds ++ [altc]))).is_missense =
        (altc != '*') := by
  rw [normalizeProteinChange_eq_core, pCore_canonical refc altc ds hr ha hne hds]
  obtain ⟨h1, h2⟩ := npcCore_parse1 _ _ _ _ (parse1_canonical refc altc ds hr ha hne hds)
  rw [upChar_fix_canonAA hr, upChar_fix_canonAA ha] at h1
  rw [upChar_fix_canonAA ha] at h2
  exact ⟨h1, h2⟩

/-- Classifying a canonical short form: nonsense on a star alternate,
missense otherwise. -/
theorem classify_canonical (refc altc : Char) (ds : Str) (hr : isCanonAA refc = true)
    (ha : isCanonAA altc = true) (hne : ds ≠ [])
    (hds : ∀ d ∈ ds, isDigitChar d = true) :
    classifyVariantType (refc :: (ds ++ [altc])) =
      if altc = '*' then VariantType.nonsense else VariantType.missense := by
  have hkw : ∀ kw ∈ classifyKeywords,
      pyIn kw (lo (refc :: (ds ++ [altc]))) = false := by
    intro kw hm
    obtain ⟨hlen, halpha⟩ := classifyKeywords_alpha kw hm
    rw [show lo (refc :: (ds ++ [altc])) =
      [loChar refc] ++ (lo ds ++ lo [altc]) from by simp [lo]]
    rw [lo_fix_digits ds hds]
    refine pyIn_two_blocks_false halpha [loChar refc] (lo [altc]) ds hne hds ?_ ?_
    · exact pyIn_singleton_false hlen _
    · rw [show lo [altc] = [loChar altc] from rfl]
      exact pyIn_singleton_false hlen _
  rw [classify_eval _ hkw]
  have hns := nonsenseSearch_core refc altc ds (canonAA_letterStar hr) hne hds
  obtain ⟨hsf, hmiss⟩ := npc_canonical refc altc ds hr ha hne hds
  rw [hns, hmiss]
  by_cases hstar : altc = '*' <;> simp [hstar]

/-! ## Classifying the original string in the two parse branches -/

/-- When the one-letter matcher succeeds on the core, the whole string
classifies as nonsense or missense according to the alternate. -/
theorem classify_of_parse1 (x : Str) (r a : Char) (ds : Str)
    (h : parseMissense1 (pCore x) = some (r, ds, a)) :
    classifyVariantType x =
      if a = '*' then VariantType.nonsense else VariantType.missense := by
  obtain ⟨hr, hne, hds, ha, hcore⟩ := (parseMissense1_eq_some_iff _ _ _ _).mp h
  obtain ⟨w1, w2, pfx, hx, hw1, hw2, hpfx⟩ := pCore_decomposition x
  have hpfx2 : pfx = [] ∨ ∃ q, pfx = [q, '.'] := by
    rcases hpfx with h1 | ⟨q, hq, -⟩
    · exact Or.inl h1
    · exact Or.inr ⟨q, hq⟩
  have hcorekw : ∀ kw ∈ classifyKeywords, pyIn kw (lo (pCore x)) = false := by
    intro kw hm
    obtain ⟨hlen, halpha⟩ := classifyKeywords_alpha kw hm
    rw [hcore]
    rw [show lo (r :: (ds ++ [a])) = [loChar r] ++ (lo ds ++ lo [a]) from by simp [lo]]
    rw [lo_fix_digits ds hds]
    refine pyIn_two_blocks_false halpha [loChar r] (lo [a]) ds hne hds ?_ ?_
    · exact pyIn_singleton_false hlen _
    · rw [show lo [a] = [loChar a] from rfl]
      exact pyIn_singleton_false hlen _
  have hkw : ∀ kw ∈ classifyKeywords, pyIn kw (lo x) = false := by
    intro kw hm
    conv_lhs => rw [hx]
    exact keywords_absent_full w1 w2 pfx (pCore x) hw1 hw2 hpfx2 hcorekw kw hm
  have hnsx : nonsenseSearch x = decide (a = '*') := by
    conv_lhs => rw [hx]
    rw [nonsenseSearch_full w1 w2 pfx (pCore x) hw1 hw2 hpfx2, hcore]
    exact nonsenseSearch_core r a ds hr hne hds
  have hmiss : (normalizeProteinChange x).is_missense = (upChar a != '*') := by
    rw [normalizeProteinChange_eq_core]
    exact (npcCore_parse1 (pCore x) r a ds h).2
  rw [classify_eval x hkw, hnsx, hmiss]
  by_cases hstar : a = '*' <;> simp [hstar, upChar_star_iff]

/-- When only the three-letter matcher succeeds on the core and both
lookups hit, the whole string classifies as missense or unknown according
to the alternate. -/
theorem classify_of_parse3 (x : Str) (t1 ds t2 : Str) (rc ac : Char)
    (h1 : parseMissense1 (pCore x) = none)
    (h3 : parseMissense3 (pCore x) = some (t1, ds, t2))
    (hrc : aminoAcid3to1.lookup (up t1) = some rc)
    (hac : aminoAcid3to1.lookup (up t2) = some ac) :
    classifyVariantType x =
      if (ac != '*') = true then VariantType.missense else VariantType.unknown := by
  obtain ⟨hcore, ht1a, ht2a, hne, hds⟩ := parseMissense3_shape _ _ _ _ h3
  obtain ⟨w1, w2, pfx, hx, hw1, hw2, hpfx⟩ := pCore_decomposition x
  have hpfx2 : pfx = [] ∨ ∃ q, pfx = [q, '.'] := by
    rcases hpfx with hp1 | ⟨q, hq, -⟩
    · exact Or.inl hp1
    · exact Or.inr ⟨q, hq⟩
  have hkw1 : ∀ kw ∈ classifyKeywords, pyIn kw (lo t1) = false := by
    intro kw hm
    have h := aminoAcid3to1_keys_no_keyword (up t1, rc) (mem_of_lookup_some hrc) kw hm
    rw [← lo_up_eq t1]
    exact h
  have hkw2 : ∀ kw ∈ classifyKeywords, pyIn kw (lo t2) = false := by
    intro kw hm
    have h := aminoAcid3to1_keys_no_keyword (up t2, ac) (mem_of_lookup_some hac) kw hm
    rw [← lo_up_eq t2]
    exact h
  have hcorekw : ∀ kw ∈ classifyKeywords, pyIn kw (lo (pCore x)) = false := by
    intro kw hm
    obtain ⟨hlen, halpha⟩ := classifyKeywords_alpha kw hm
    rw [hcore, lo_append, lo_append, lo_fix_digits ds hds]
    exact pyIn_two_blocks_false halpha (lo t1) (lo t2) ds hne hds
      (hkw1 kw hm) (hkw2 kw hm)
  have hkw : ∀ kw ∈ classifyKeywords, pyIn kw (lo x) = false := by
    intro kw hm
    conv_lhs => rw [hx]
    exact keywords_absent_full w1 w2 pfx (pCore x) hw1 hw2 hpfx2 hcorekw kw hm
  have hstarx : nonsenseSearch x = false := by
    cases hnssv : nonsenseSearch x
    · rfl
    · exfalso
      have hmem := star_mem_of_nonsenseSearch hnssv
      rw [hx] at hmem
      simp only [List.mem_append] at hmem
      rcases hmem with (hm1 | hmp | hmc) | hm2
      · exact absurd (hw1 _ hm1) (by decide)
      · rcases hpfx with rfl | ⟨q, rfl, hq⟩
        · cases hmp
        · have hqq : ('*' : Char) = q ∨ ('*' : Char) = '.' := by simpa using hmp
          rcases hqq with hq2 | hq2
          · rw [← hq2] at hq
            exact absurd hq (by decide)
          · exact absurd hq2 (by decide)
      · rw [hcore] at hmc
        simp only [List.mem_append] at hmc
        rcases hmc with hmm | hmm | hmm
        · exact absurd (ht1a _ hmm) (by decide)
        · exact absurd (hds _ hmm) (by decide)
        · exact absurd (ht2a _ hmm) (by decide)
      · exact absurd (hw2 _ hm2) (by decide)
  have hmiss : (normalizeProteinChange x).is_missense = (ac != '*') := by
    rw [normalizeProteinChange_eq_core]
    exact (npcCore_parse3 (pCore x) t1 ds t2 rc ac h1 h3 hrc hac).2
  rw [classify_eval x hkw, hstarx, hmiss]
  simp

/-! ## Idempotence of normalization on the canonical fields -/

/-- When no short form is produced, normalization just strips, and both
passes agree. -/
theorem idem_of_short_form_none (g x : Str)
    (hn : (normalizeProteinChange x).short_form = none) :
    (normalizeVariant g ((normalizeVariant g x).variant_normalized)).variant_normalized =
        (normalizeVariant g x).variant_normalized ∧
      (normalizeVariant g ((normalizeVariant g x).variant_normalized)).variant_type =
        (normalizeVariant g x).variant_type := by
  have hy : (normalizeVariant g x).variant_normalized = pyStrip x := by
    simp only [normalizeVariant, hn]
  have hn2 : (normalizeProteinChange (pyStrip x)).short_form = none := by
    rw [normalizeProteinChange_strip]
    exact hn
  constructor
  · rw [hy]
    simp only [normalizeVariant, hn2]
    exact pyStrip_idem x
  · rw [hy]
    simp only [normalizeVariant]
    exact classify_strip x

/-- When a canonical short form is produced, the second pass reproduces
it and classifies it the same way. -/
theorem idem_of_short_form_canonical (g x : Str) (refc altc : Char) (ds : Str)
    (hsf : (normalizeProteinChange x).short_form = some (refc :: (ds ++ [altc])))
    (hr : isCanonAA refc = true) (ha : isCanonAA altc = true)
    (hne : ds ≠ []) (hds : ∀ d ∈ ds, isDigitChar d = true)
    (hcls : classifyVariantType x =
      if altc = '*' then VariantType.nonsense else VariantType.missense) :
    (normalizeVariant g ((normalizeVariant g x).variant_normalized)).variant_normalized =
        (normalizeVariant g x).variant_normalized ∧
      (normalizeVariant g ((normalizeVariant g x).variant_normalized)).variant_type =
        (normalizeVariant g x).variant_type := by
  have hy : (normalizeVariant g x).variant_normalized = refc :: (ds ++ [altc]) := by
    simp only [normalizeVariant, hsf]
  obtain ⟨hsf2, hmiss2⟩ := npc_canonical refc altc ds hr ha hne hds
  constructor
  · rw [hy]
    simp only [normalizeVariant, hsf2]
  · rw [hy]
    simp only [normalizeVariant]
    rw [classify_canonical refc altc ds hr ha hne hds, hcls]

/-- C6: amended normalization idempotence.  For every accepted variant
`x` and gene `g`, re-normalizing the canonical form
`normalize_variant(g, x)["variant_normalized"]` reproduces the `gene`,
`variant_normalized` and `variant_type` fields of the first pass.  (The
spec claims the whole result dictionaries are equal; see the
counterexample for the fields on which that fails.) -/
theorem normalize_canonical_idempotent (g x : Str)
    (hacc : classifyVariantType x ∈ allowedVariantTypes) :
    (normalizeVariant g ((normalizeVariant g x).variant_normalized)).gene =
        (normalizeVariant g x).gene ∧
      (normalizeVariant g ((normalizeVariant g x).variant_normalized)).variant_normalized =
        (normalizeVariant g x).variant_normalized ∧
      (normalizeVariant g ((normalizeVariant g x).variant_normalized)).variant_type =
        (normalizeVariant g x).variant_type := by
  refine ⟨rfl, ?_⟩
  rcases hp1 : parseMissense1 (pCore x) with _ | ⟨r, ds, a⟩
  · rcases hp3 : parseMissense3 (pCore x) with _ | ⟨t1, ds, t2⟩
    · refine idem_of_short_form_none g x ?_
      rw [normalizeProteinChange_eq_core, npcCore_none _ hp1 hp3]
      rfl
    · rcases hrc : aminoAcid3to1.lookup (up t1) with _ | rc
      · refine idem_of_short_form_none g x ?_
        rw [normalizeProteinChange_eq_core,
          npcCore_lookup_fail _ t1 ds t2 hp1 hp3 (Or.inl hrc)]
        rfl
      · rcases hac : aminoAcid3to1.lookup (up t2) with _ | ac
        · refine idem_of_short_form_none g x ?_
          rw [normalizeProteinChange_eq_core,
            npcCore_lookup_fail _ t1 ds t2 hp1 hp3 (Or.inr hac)]
          rfl
        · obtain ⟨hcore, ht1a, ht2a, hne, hds⟩ := parseMissense3_shape _ _ _ _ hp3
          have hsf : (normalizeProteinChange x).short_form =
              some (rc :: (ds ++ [ac])) := by
            rw [normalizeProteinChange_eq_core]
            exact (npcCore_parse3 (pCore x) t1 ds t2 rc ac hp1 hp3 hrc hac).1
          have hcanr : isCanonAA rc = true :=
            aminoAcid3to1_values_canon _ (mem_of_lookup_some hrc)
          have hcana : isCanonAA ac = true :=
            aminoAcid3to1_values_canon _ (mem_of_lookup_some hac)
          have hclsx := classify_of_parse3 x t1 ds t2 rc ac hp1 hp3 hrc hac
          have hstar : ¬ (ac = '*') := by
            intro hcon
            rw [hcon] at hclsx
            simp at hclsx
            rw [hclsx] at hacc
            exact absurd hacc (by decide)
          have hcls : classifyVariantType x =
              if ac = '*' then VariantType.nonsense else VariantType.missense := by
            rw [hclsx, if_pos (show (ac != '*') = true by simp [hstar]), if_neg hstar]
          exact idem_of_short_form_canonical g x rc ac ds hsf hcanr hcana hne hds hcls
  · obtain ⟨hr, hne, hds, ha, hcore⟩ := (parseMissense1_eq_some_iff _ _ _ _).mp hp1
    have hsf : (normalizeProteinChange x).short_form =
        some (upChar r :: (ds ++ [upChar a])) := by
      rw [normalizeProteinChange_eq_core]
      exact (npcCore_parse1 (pCore x) r a ds hp1).1
    have hcls : classifyVariantType x =
        if upChar a = '*' then VariantType.nonsense else VariantType.missense := by
      simp only [upChar_star_iff]
      exact classify_of_parse1 x r a ds hp1
    exact idem_of_short_form_canonical g x (upChar r) (upChar a) ds hsf
      (upChar_canonAA hr) (upChar_canonAA ha) hne hds hcls

/-- C6 counterexample: the claim as stated, full equality of the two
result dictionaries, fails on the accepted variant `Stp600Glu`: its
canonical form is `*600E`, whose re-normalization records a different
`variant_original` and rebuilds the long form as `TER600GLU` instead of
`STP600GLU`. -/
theorem normalize_idempotence_claim_counterexample :
    classifyVariantType (lit "Stp600Glu") ∈ allowedVariantTypes ∧
      normalizeVariant (lit "BRAF")
          ((normalizeVariant (lit "BRAF") (lit "Stp600Glu")).variant_normalized) ≠
        normalizeVariant (lit "BRAF") (lit "Stp600Glu") := by
  constructor
  · decide
  · decide

/-- C6 witness: the amended theorem applied to the accepted variant
`p.Val600Glu` with surrounding whitespace. -/
theorem normalize_canonical_idempotent_witness :
    classifyVariantType (lit " p.Val600Glu ") ∈ allowedVariantTypes ∧
      ((normalizeVariant (lit "BRAF")
          ((normalizeVariant (lit "BRAF") (lit " p.Val600Glu ")).variant_normalized)).gene =
          (normalizeVariant (lit "BRAF") (lit " p.Val600Glu ")).gene ∧
        (normalizeVariant (lit "BRAF")
          ((normalizeVariant (lit "BRAF") (lit " p.Val600Glu ")).variant_normalized)).variant_normalized =
          (normalizeVariant (lit "BRAF") (lit " p.Val600Glu ")).variant_normalized ∧
        (normalizeVariant (lit "BRAF")
          ((normalizeVariant (lit "BRAF") (lit " p.Val600Glu ")).variant_normalized)).variant_type =
          (normalizeVariant (lit "BRAF") (lit " p.Val600Glu ")).variant_type) :=
  ⟨by decide,
    normalize_canonical_idempotent (lit "BRAF") (lit " p.Val600Glu ") (by decide)⟩

end VariantVoice
